import Mathlib

/-!
Verification development for the yae-modernize-tailwind core.

The TypeScript sources are shallowly embedded: strings are lists of
characters, JavaScript arrays are Lean lists, class instances are
structures threaded explicitly, and regular-expression scans are spelled
out as character-level scanning functions that reproduce the behaviour
of the concrete patterns appearing in the source.  Every definition in
the first part of the file is a direct translation of a source function
(file and function named in its doc comment); definitions whose name
ends in `Spec` are instead written from the specification text, for
comparison.
-/

set_option maxRecDepth 20000

/-- JavaScript strings are modelled as lists of characters. -/
abbrev Str := List Char

/-- Coercion from Lean string literals to the character-list model. -/
def strLit (s : String) : Str := s.data

/-- `String.prototype.split(sep)` for a one-character separator: splits at
every occurrence, keeping empty segments; the empty string yields `[[]]`.
Auxiliary accumulator form. -/
def splitCharAux (sep : Char) : Str → Str → List Str
  | [], acc => [acc.reverse]
  | c :: rest, acc =>
    if c = sep then acc.reverse :: splitCharAux sep rest []
    else splitCharAux sep rest (c :: acc)

/-- `s.split(sep)` for a one-character separator. -/
def splitChar (sep : Char) (s : Str) : List Str := splitCharAux sep s []

/-- `parts.join(sep)` for a one-character separator. -/
def joinChar (sep : Char) : List Str → Str
  | [] => []
  | [p] => p
  | p :: rest => p ++ sep :: joinChar sep rest

/-- `parts.join(' ')`, as used by every reconstructor. -/
def joinSpace (parts : List Str) : Str := joinChar ' ' parts

/-- `Array.prototype.indexOf` on an array of strings: index of the first
occurrence, `none` standing for JavaScript's `-1`. -/
def jsIndexOf : List Str → Str → Option Nat
  | [], _ => none
  | y :: rest, x =>
    if y = x then some 0 else (jsIndexOf rest x).map (· + 1)

/-- `String.prototype.startsWith`. -/
def jsStartsWith (s pre : Str) : Bool := pre.isPrefixOf s

/-- `String.prototype.includes` for a one-character needle. -/
def jsIncludesChar (s : Str) (c : Char) : Bool := s.contains c

/-- `String.prototype.includes` for a general needle: the needle occurs
as a contiguous substring. -/
def jsIncludes : Str → Str → Bool
  | s, needle =>
    if needle.isPrefixOf s then true
    else match s with
      | [] => false
      | _ :: rest => jsIncludes rest needle

/-- `src/util/parseClassName.ts`: result record of `parseClassName`
(`{variants, className, original}`); the conversion rules additionally
spread in a numeric `index` (unused downstream), carried here as a field
defaulting to `0`. -/
structure ClassInfo where
  variants : Str
  className : Str
  original : Str
  index : Nat := 0
deriving DecidableEq, Repr

/-- `src/util/parseClassName.ts` `parseClassName`: splits a full token on
`:`; the part after the last `:` is the base class name, the rest is the
variant prefix (re-joined with `:` and given a trailing `:` when
non-empty). -/
def parseClassName (fullClass : Str) : ClassInfo :=
  let parts := splitChar ':' fullClass
  -- `parts.pop() || ''`: `split` never returns an empty array, so the
  -- `|| ''` default only covers a popped empty segment (falsy `''`),
  -- which leaves the result unchanged.
  let className := parts.getLast?.getD []
  let rest := parts.dropLast
  let variants := joinChar ':' rest ++ (if rest.length > 0 then [':'] else [])
  { variants := variants, className := className, original := fullClass }

/-- `safeArrayOperations.ts` `ClassMark.operation` values. -/
inductive MarkOp where
  | remove
  | replace
deriving DecidableEq, Repr

/-- `safeArrayOperations.ts` interface `ClassMark`; `replacement?` is an
optional field, present exactly on marks recorded by
`markForReplacement`. -/
structure ClassMark where
  index : Nat
  operation : MarkOp
  original : Str
  replacement : Option Str := none
deriving DecidableEq, Repr

/-- `safeArrayOperations.ts` class `SafeClassProcessor`: the private
mutable state (`originalClasses`, `marks`, `additions`). -/
structure SafeClassProcessor where
  originalClasses : List Str
  marks : List ClassMark
  additions : List Str
deriving DecidableEq, Repr

/-- `SafeClassProcessor` constructor: copies the class list, starts with
no marks and no additions. -/
def SafeClassProcessor.mk' (classes : List Str) : SafeClassProcessor :=
  { originalClasses := classes, marks := [], additions := [] }

/-- `SafeClassProcessor.markForRemoval`: look up the first token equal to
`className`; on success push a remove mark for its index.  Returns the
updated state and the boolean result. -/
def SafeClassProcessor.markForRemoval (p : SafeClassProcessor) (className : Str) :
    SafeClassProcessor × Bool :=
  match jsIndexOf p.originalClasses className with
  | none => (p, false)
  | some index =>
    ({ p with marks := p.marks ++
        [{ index := index, operation := .remove, original := className }] }, true)

/-- `SafeClassProcessor.markForReplacement`: same lookup, records a
replace mark carrying the replacement text. -/
def SafeClassProcessor.markForReplacement (p : SafeClassProcessor)
    (original replacement : Str) : SafeClassProcessor × Bool :=
  match jsIndexOf p.originalClasses original with
  | none => (p, false)
  | some index =>
    ({ p with marks := p.marks ++
        [{ index := index, operation := .replace, original := original,
           replacement := some replacement }] }, true)

/-- `SafeClassProcessor.addClass`: append one addition. -/
def SafeClassProcessor.addClass (p : SafeClassProcessor) (className : Str) :
    SafeClassProcessor :=
  { p with additions := p.additions ++ [className] }

/-- `SafeClassProcessor.addClasses`: append several additions. -/
def SafeClassProcessor.addClasses (p : SafeClassProcessor) (classNames : List Str) :
    SafeClassProcessor :=
  { p with additions := p.additions ++ classNames }

/-- `SafeClassProcessor.reset`: clear marks and additions, keep the
snapshot. -/
def SafeClassProcessor.reset (p : SafeClassProcessor) : SafeClassProcessor :=
  { p with marks := [], additions := [] }

/-- `safeArrayOperations.ts` `ClassOperation` entries produced by
`execute`. -/
inductive ClassOperation where
  | removeOp (original : Str)
  | replaceOp (original replacement : Str)
  | addOp (replacement : Str)
deriving DecidableEq, Repr

/-- `safeArrayOperations.ts` `SafeArrayResult`. -/
structure SafeArrayResult where
  newClasses : List Str
  operations : List ClassOperation
  changed : Bool
deriving DecidableEq, Repr

/-- Body of the `for (let i = 0; ...)` loop of
`SafeClassProcessor.execute`, folded over the enumerated snapshot.  The
guard `mark.operation === 'replace' && mark.replacement` is JavaScript
truthiness: an absent replacement or the empty string both fail it, in
which case the position produces nothing. -/
def executeStep (marks : List ClassMark) (acc : List Str × List ClassOperation)
    (entry : Nat × Str) : List Str × List ClassOperation :=
  let (result, operations) := acc
  let (i, className) := entry
  match marks.find? (fun m => m.index == i) with
  | some mark =>
    match mark.operation with
    | .remove => (result, operations ++ [.removeOp mark.original])
    | .replace =>
      match mark.replacement with
      | some r =>
        if r.length > 0 then
          (result ++ [r], operations ++ [.replaceOp mark.original r])
        else (result, operations)
      | none => (result, operations)
  | none => (result ++ [className], operations)

/-- `SafeClassProcessor.execute`: one forward pass over the snapshot
applying the first mark recorded for each index, then the additions;
`changed` is `marks.length > 0 || additions.length > 0`. -/
def SafeClassProcessor.execute (p : SafeClassProcessor) : SafeArrayResult :=
  let st := p.originalClasses.enum.foldl (executeStep p.marks) ([], [])
  { newClasses := st.1 ++ p.additions
    operations := st.2 ++ p.additions.map .addOp
    changed := p.marks.length > 0 || p.additions.length > 0 }

/-- `ClassUtils.replacePair`: mark both halves for removal; if both
succeed add the merged token and answer `true`; if exactly one succeeded
reset the processor; answer `false` otherwise. -/
def ClassUtils.replacePair (p : SafeClassProcessor) (class1 class2 replacement : Str) :
    SafeClassProcessor × Bool :=
  let (p1, removed1) := p.markForRemoval class1
  let (p2, removed2) := p1.markForRemoval class2
  if removed1 && removed2 then (p2.addClass replacement, true)
  else if removed1 || removed2 then (p2.reset, false)
  else (p2, false)

/-- `ClassUtils.extractValue`: text after the last `-`, or `null` when the
name has no `-`. -/
def ClassUtils.extractValue (className : Str) : Option Str :=
  let parts := splitChar '-' className
  if parts.length > 1 then some (parts.getLast?.getD []) else none

/-- `ClassUtils.haveSameValue`: both extract a value and the values are
textually identical. -/
def ClassUtils.haveSameValue (class1 class2 : Str) : Bool :=
  match ClassUtils.extractValue class1, ClassUtils.extractValue class2 with
  | some v1, some v2 => v1 == v2
  | _, _ => false

/-- `ClassUtils.groupByVariant`: fold the parsed tokens into a map keyed
by variant prefix.  JavaScript object keys preserve insertion order for
non-integer keys, and variant prefixes are never canonical integers
(empty or ending in `:`), so an ordered association list is faithful. -/
def ClassUtils.groupByVariant (classInfos : List ClassInfo) :
    List (Str × List ClassInfo) :=
  classInfos.foldl
    (fun acc classInfo =>
      if acc.any (fun g => g.1 == classInfo.variants) then
        acc.map (fun g =>
          if g.1 == classInfo.variants then (g.1, g.2 ++ [classInfo]) else g)
      else acc ++ [(classInfo.variants, [classInfo])])
    []

/-- `ClassUtils.findClassesWithPrefix`: tokens whose base class name
starts with `pfx + "-"`. -/
def ClassUtils.findClassesWithPrefix (classes : List ClassInfo) (pfx : Str) :
    List ClassInfo :=
  classes.filter (fun classInfo => jsStartsWith classInfo.className (pfx ++ ['-']))

/-- `ClassUtils.createProcessor`: split the raw attribute value on single
spaces, drop empty fragments, snapshot the result. -/
def ClassUtils.createProcessor (classString : Str) : SafeClassProcessor :=
  SafeClassProcessor.mk' ((splitChar ' ' classString).filter (fun c => c.length > 0))

/-!
## Pattern registry (`src/util/patternRegistry.ts`)

Each regular expression of `PATTERN_MATCHERS` is embedded as a scanning
function on character lists.  All the value sub-patterns are negated
character classes (which in JavaScript also match newlines), so greedy
matching never needs to backtrack except inside the template-literal
pattern, where the backtracking over the leading `` [^`]* `` is spelled
out explicitly.
-/

/-- JavaScript's `\s` character class. -/
def isJsSpace (c : Char) : Bool :=
  c = ' ' || c = '\t' || c = '\n' || c = '\r' ||
  c = Char.ofNat 11 || c = Char.ofNat 12 ||
  c = Char.ofNat 0xa0 || c = Char.ofNat 0x1680 ||
  (Char.ofNat 0x2000 ≤ c && c ≤ Char.ofNat 0x200a) ||
  c = Char.ofNat 0x2028 || c = Char.ofNat 0x2029 ||
  c = Char.ofNat 0x202f || c = Char.ofNat 0x205f ||
  c = Char.ofNat 0x3000 || c = Char.ofNat 0xfeff

/-- The character class `["']`. -/
def isQuote (c : Char) : Bool := c = '"' || c = '\''

/-- The backtick character (U+0060). -/
def backtick : Char := Char.ofNat 96

/-- Length of the leading run satisfying `p` (a greedy `p*`). -/
def runLen (p : Char → Bool) (s : Str) : Nat := (s.takeWhile p).length

/-- Match, at the start of `s`, the pattern `name\s*=\s*["'][^"']*["']`
(the shared shape of all quoted-attribute patterns).  Returns the length
of the match.  The greedy sub-patterns need no backtracking: `\s*` is
followed by a non-space character, and `[^"']*` is followed by a quote.
The multiline variants `["']([^"']*(?:\r?\n[^"']*)*?)["']` accept exactly
the same strings, because `[^"']` already matches newline characters and
the lazy group therefore always matches the empty string. -/
def matchAttrAt (name : Str) (s : Str) : Option Nat :=
  if name.isPrefixOf s then
    let s1 := s.drop name.length
    let w1 := runLen isJsSpace s1
    match s1.drop w1 with
    | '=' :: s3 =>
      let w2 := runLen isJsSpace s3
      match s3.drop w2 with
      | q1 :: s5 =>
        if isQuote q1 then
          let v := runLen (fun c => !isQuote c) s5
          match s5.drop v with
          | q2 :: _ =>
            if isQuote q2 then some (name.length + w1 + 1 + w2 + 1 + v + 1)
            else none
          | [] => none
        else none
      | [] => none
    | _ => none
  else none

/-- Match, at the start of `s`, the pattern
`className\s*=\s*\{["']([^"']*)["']\}` (the JSX curly-brace matcher). -/
def matchCurlyAttrAt (s : Str) : Option Nat :=
  let name := strLit "className"
  if name.isPrefixOf s then
    let s1 := s.drop name.length
    let w1 := runLen isJsSpace s1
    match s1.drop w1 with
    | '=' :: s3 =>
      let w2 := runLen isJsSpace s3
      match s3.drop w2 with
      | '{' :: s4 =>
        match s4 with
        | q1 :: s5 =>
          if isQuote q1 then
            let v := runLen (fun c => !isQuote c) s5
            match s5.drop v with
            | q2 :: s6 =>
              if isQuote q2 then
                match s6 with
                | '}' :: _ => some (name.length + w1 + 1 + w2 + 1 + 1 + v + 1 + 1)
                | _ => none
              else none
            | [] => none
          else none
        | [] => none
      | _ => none
    | _ => none
  else none

/-- Match, at the start of `s` (which must begin right after the opening
backtick plus `k` skipped characters), the sub-pattern
`class\s*=\s*["']([^"'`]*)["']` of the template-literal matcher. -/
def matchTemplAttrAt (s : Str) : Option Nat :=
  let name := strLit "class"
  if name.isPrefixOf s then
    let s1 := s.drop name.length
    let w1 := runLen isJsSpace s1
    match s1.drop w1 with
    | '=' :: s3 =>
      let w2 := runLen isJsSpace s3
      match s3.drop w2 with
      | q1 :: s5 =>
        if isQuote q1 then
          let v := runLen (fun c => !(isQuote c || c = backtick)) s5
          match s5.drop v with
          | q2 :: _ =>
            if isQuote q2 then some (name.length + w1 + 1 + w2 + 1 + v + 1)
            else none
          | [] => none
        else none
      | [] => none
    | _ => none
  else none

/-- One backtracking attempt of the template-literal pattern: skip `k`
characters of `body` for the leading `` [^`]* ``, then require the
attribute sub-pattern followed by `` [^`]*` ``. -/
def templateAttempt (body : Str) (k : Nat) : Option Nat :=
  let rest := body.drop k
  match matchTemplAttrAt rest with
  | some l =>
    let s2 := rest.drop l
    let t := runLen (fun c => c ≠ backtick) s2
    match s2.drop t with
    | c :: _ => if c = backtick then some (1 + k + l + t + 1) else none
    | [] => none
  | none => none

/-- Backtracking over the leading `` [^`]* `` of the template-literal
pattern: try skipping `k, k-1, ..., 0` characters of `body` (longest
first, as a greedy group does) until the attribute sub-pattern and the
trailing `` [^`]*` `` both match. -/
def templateTryK (body : Str) : Nat → Option Nat
  | 0 => templateAttempt body 0
  | k + 1 =>
    match templateAttempt body (k + 1) with
    | some r => some r
    | none => templateTryK body k

/-- Match, at the start of `s`, the template-literal pattern
`` `[^`]*class\s*=\s*["']([^"'`]*)["'][^`]*` ``. -/
def matchTemplateAt (s : Str) : Option Nat :=
  match s with
  | c :: body =>
    if c = backtick then templateTryK body (runLen (fun d => d ≠ backtick) body)
    else none
  | _ => none

/-- Leftmost-match scan: try `matchAt` on every suffix of `s`, returning
the `[start, end)` span of the first (leftmost) match.  This is what
`RegExp.prototype.exec` does from `lastIndex` for these patterns. -/
def execScanAux (matchAt : Str → Option Nat) : Str → Nat → Option (Nat × Nat)
  | [], _ => none
  | s@(_ :: rest), pos =>
    match matchAt s with
    | some len => some (pos, pos + len)
    | none => execScanAux matchAt rest (pos + 1)

/-- `exec` from index `i`: leftmost match of the pattern at or after `i`. -/
def execFrom (matchAt : Str → Option Nat) (content : Str) (i : Nat) :
    Option (Nat × Nat) :=
  execScanAux matchAt (content.drop i) i

/-- `patternRegistry.ts` `extractQuoted`: value between the first two
quote characters of the matched text (`/["']([^"']*)["']/`), `''` when
the inner regex fails. -/
def extractQuoted (m : Str) : Str :=
  let fromQuote := m.dropWhile (fun c => !isQuote c)
  match fromQuote with
  | _ :: rest =>
    let v := rest.takeWhile (fun c => !isQuote c)
    match rest.drop v.length with
    | _ :: _ => v
    | [] => []
  | [] => []

/-- `patternRegistry.ts` `extractVueBinding`: same inner regex as
`extractQuoted`. -/
def extractVueBinding (m : Str) : Str := extractQuoted m

/-- One step of the scan for `extractJSXCurly`'s inner regex
`/\{["']([^"']*)["']\}/`: try to match at the start of `s`. -/
def matchCurlyValueAt (s : Str) : Option Str :=
  match s with
  | '{' :: q1 :: rest =>
    if isQuote q1 then
      let v := rest.takeWhile (fun c => !isQuote c)
      match rest.drop v.length with
      | q2 :: '}' :: _ => if isQuote q2 then some v else none
      | _ => none
    else none
  | _ => none

/-- Leftmost-match scan for `extractJSXCurly`. -/
def scanCurlyValue : Str → Str
  | [] => []
  | s@(_ :: rest) =>
    match matchCurlyValueAt s with
    | some v => v
    | none => scanCurlyValue rest

/-- `patternRegistry.ts` `extractJSXCurly`: value of the first
`{"..."}`-shaped group in the matched text, `''` when absent. -/
def extractJSXCurly (m : Str) : Str := scanCurlyValue m

/-- `patternRegistry.ts` `extractTemplate`: text between the first two
backticks (`` /`([^`]*)`/ ``), `''` when absent. -/
def extractTemplate (m : Str) : Str :=
  let fromTick := m.dropWhile (fun c => c ≠ backtick)
  match fromTick with
  | _ :: rest =>
    let v := rest.takeWhile (fun c => c ≠ backtick)
    match rest.drop v.length with
    | _ :: _ => v
    | [] => []
  | [] => []

/-- `patternRegistry.ts` `reconstructHTML`. -/
def reconstructHTML (classes : List Str) (original : Str) : Str :=
  let quote : Char := if jsIncludesChar original '"' then '"' else '\''
  strLit "class=" ++ [quote] ++ joinSpace classes ++ [quote]

/-- `patternRegistry.ts` `reconstructJSX`. -/
def reconstructJSX (classes : List Str) (original : Str) : Str :=
  let quote : Char := if jsIncludesChar original '"' then '"' else '\''
  let hasCurly := jsIncludesChar original '{'
  if hasCurly then
    strLit "className=" ++ ['{', quote] ++ joinSpace classes ++ [quote, '}']
  else
    strLit "className=" ++ [quote] ++ joinSpace classes ++ [quote]

/-- `patternRegistry.ts` `reconstructVue`. -/
def reconstructVue (classes : List Str) (original : Str) : Str :=
  let quote : Char := if jsIncludesChar original '"' then '"' else '\''
  let isBinding := jsIncludes original (strLit ":class")
  let pre := if isBinding then strLit ":class" else strLit "v-bind:class"
  pre ++ ['='] ++ [quote] ++ joinSpace classes ++ [quote]

/-- `patternRegistry.ts` `reconstructAngular`. -/
def reconstructAngular (classes : List Str) (original : Str) : Str :=
  let quote : Char := if jsIncludesChar original '"' then '"' else '\''
  let isBinding := jsIncludes original (strLit "[class]")
  let pre := if isBinding then strLit "[class]" else strLit "[ngClass]"
  pre ++ ['='] ++ [quote] ++ joinSpace classes ++ [quote]

/-- `patternRegistry.ts` `reconstructSvelte`. -/
def reconstructSvelte (classes : List Str) (original : Str) : Str :=
  let quote : Char := if jsIncludesChar original '"' then '"' else '\''
  strLit "class=" ++ [quote] ++ joinSpace classes ++ [quote]

/-- `patternRegistry.ts` `reconstructTemplate`. -/
def reconstructTemplate (classes : List Str) (_original : Str) : Str :=
  [backtick] ++ strLit "class=" ++ ['"'] ++ joinSpace classes ++ ['"'] ++ [backtick]

/-- The eleven entries of `PATTERN_MATCHERS`, in source order.  (The
`syntax` tag field of the source records is never read by the code and
is omitted.) -/
inductive MatcherId where
  | htmlQuoted      -- HTML class attribute - quoted
  | jsxQuoted       -- React/JSX className - quoted
  | jsxCurly        -- React/JSX className - curly braces with quotes
  | vueColon        -- Vue.js class binding - quoted
  | vueBind         -- Vue.js v-bind:class - quoted
  | angularClass    -- Angular class binding
  | angularNg       -- Angular ngClass binding
  | svelteQuoted    -- Svelte class attribute
  | templateLit     -- Template literals with class attributes
  | htmlMulti       -- Multi-line class attributes (HTML)
  | jsxMulti        -- Multi-line className attributes (React/JSX)
deriving DecidableEq, Repr

/-- `framework` tag lists of the `PATTERN_MATCHERS` entries. -/
def matcherFrameworks : MatcherId → List Str
  | .htmlQuoted => [strLit "html", strLit "php", strLit "django", strLit "erb"]
  | .jsxQuoted => [strLit "react", strLit "jsx", strLit "tsx"]
  | .jsxCurly => [strLit "react", strLit "jsx", strLit "tsx"]
  | .vueColon => [strLit "vue"]
  | .vueBind => [strLit "vue"]
  | .angularClass => [strLit "angular"]
  | .angularNg => [strLit "angular"]
  | .svelteQuoted => [strLit "svelte"]
  | .templateLit => [strLit "javascript", strLit "typescript"]
  | .htmlMulti => [strLit "html", strLit "php", strLit "django", strLit "erb"]
  | .jsxMulti => [strLit "react", strLit "jsx", strLit "tsx"]

/-- The `pattern` of each matcher, as a match-at-start-of-suffix
function.  The two multiline patterns accept exactly the same strings as
their single-line counterparts (see `matchAttrAt`). -/
def matcherMatchAt : MatcherId → Str → Option Nat
  | .htmlQuoted => matchAttrAt (strLit "class")
  | .jsxQuoted => matchAttrAt (strLit "className")
  | .jsxCurly => matchCurlyAttrAt
  | .vueColon => matchAttrAt (strLit ":class")
  | .vueBind => matchAttrAt (strLit "v-bind:class")
  | .angularClass => matchAttrAt (strLit "[class]")
  | .angularNg => matchAttrAt (strLit "[ngClass]")
  | .svelteQuoted => matchAttrAt (strLit "class")
  | .templateLit => matchTemplateAt
  | .htmlMulti => matchAttrAt (strLit "class")
  | .jsxMulti => matchAttrAt (strLit "className")

/-- The `extractor` of each matcher. -/
def matcherExtractor : MatcherId → Str → Str
  | .htmlQuoted => extractQuoted
  | .jsxQuoted => extractQuoted
  | .jsxCurly => extractJSXCurly
  | .vueColon => extractVueBinding
  | .vueBind => extractVueBinding
  | .angularClass => extractVueBinding
  | .angularNg => extractVueBinding
  | .svelteQuoted => extractQuoted
  | .templateLit => extractTemplate
  | .htmlMulti => extractQuoted
  | .jsxMulti => extractQuoted

/-- The `reconstructor` of each matcher. -/
def matcherReconstructor : MatcherId → List Str → Str → Str
  | .htmlQuoted => reconstructHTML
  | .jsxQuoted => reconstructJSX
  | .jsxCurly => reconstructJSX
  | .vueColon => reconstructVue
  | .vueBind => reconstructVue
  | .angularClass => reconstructAngular
  | .angularNg => reconstructAngular
  | .svelteQuoted => reconstructSvelte
  | .templateLit => reconstructTemplate
  | .htmlMulti => reconstructHTML
  | .jsxMulti => reconstructJSX

/-- `PATTERN_MATCHERS`, in source order. -/
def PATTERN_MATCHERS : List MatcherId :=
  [.htmlQuoted, .jsxQuoted, .jsxCurly, .vueColon, .vueBind,
   .angularClass, .angularNg, .svelteQuoted, .templateLit,
   .htmlMulti, .jsxMulti]

/-- `patternRegistry.ts` `getPatternSpecificity`. -/
def getPatternSpecificity (frameworks : List Str) : Nat :=
  if frameworks.contains (strLit "vue") then 3
  else if frameworks.contains (strLit "react") || frameworks.contains (strLit "jsx")
      || frameworks.contains (strLit "tsx") then 3
  else if frameworks.contains (strLit "angular") then 2
  else if frameworks.contains (strLit "svelte") then 2
  else if frameworks.contains (strLit "html") then 1
  else 0

/-- The `frameworkMap` record of `getPatternMatchersForFile`. -/
def frameworkMapLookup (ext : Str) : Option (List Str) :=
  if ext == strLit "html" then some [strLit "html", strLit "angular"]
  else if ext == strLit "htm" then some [strLit "html", strLit "angular"]
  else if ext == strLit "php" then some [strLit "php"]
  else if ext == strLit "erb" then some [strLit "erb"]
  else if ext == strLit "jsx" then some [strLit "react", strLit "jsx", strLit "html"]
  else if ext == strLit "tsx" then
    some [strLit "react", strLit "jsx", strLit "tsx", strLit "html"]
  else if ext == strLit "js" then some [strLit "javascript", strLit "html"]
  else if ext == strLit "ts" then
    some [strLit "typescript", strLit "html", strLit "angular"]
  else if ext == strLit "vue" then some [strLit "vue", strLit "html"]
  else if ext == strLit "svelte" then some [strLit "svelte"]
  else none

/-- `patternRegistry.ts` `getPatternMatchersForFile`: lower-cased final
extension segment, mapped to framework tags (default `['html']`), then
the matchers whose tag lists intersect them. -/
def getPatternMatchersForFile (filePath : Str) : List MatcherId :=
  let extension := ((splitChar '.' filePath).getLast?.getD []).map Char.toLower
  let relevantFrameworks := (frameworkMapLookup extension).getD [strLit "html"]
  PATTERN_MATCHERS.filter (fun m =>
    (matcherFrameworks m).any (fun fw => relevantFrameworks.contains fw))

/-- `patternRegistry.ts` interface `ClassMatch` (`match` is spelled
`matchText`, a reserved word in Lean). -/
structure ClassMatch where
  matchText : Str
  classes : Str
  matcher : MatcherId
  startIndex : Nat
  endIndex : Nat
deriving DecidableEq, Repr

/-- The duplicate-detection keys `${start}-${end}-${text}`; the decimal
components contain no `-`, so the triple determines the key string. -/
abbrev MatchKey := Nat × Nat × Str

/-- The overlap test of `extractAllClassMatches`, verbatim. -/
def overlapsExisting (startIndex endIndex : Nat) (existing : ClassMatch) : Bool :=
  (startIndex ≥ existing.startIndex && startIndex < existing.endIndex) ||
  (endIndex > existing.startIndex && endIndex ≤ existing.endIndex) ||
  (startIndex ≤ existing.startIndex && endIndex ≥ existing.endIndex)

/-- `matches.find(...)` together with `matches.indexOf(...)`: the first
overlapping entry and its index. -/
def findOverlapping (startIndex endIndex : Nat) :
    List ClassMatch → Option (Nat × ClassMatch)
  | [] => none
  | m :: rest =>
    if overlapsExisting startIndex endIndex m then some (0, m)
    else (findOverlapping startIndex endIndex rest).map (fun p => (p.1 + 1, p.2))

/-- The `while ((match = matcher.pattern.exec(content)) !== null)` loop of
`extractAllClassMatches` for one matcher.  `fuel` bounds the iteration
count; every iteration advances `lastIndex` past a non-empty match, so
`content.length + 1` units of fuel are never exhausted.  All patterns
carry the `g` flag, so the `if (!matcher.pattern.global) break` guards
never fire and each branch simply continues with the advanced index. -/
def matcherLoop (content : Str) (m : MatcherId) :
    Nat → Nat → List ClassMatch × List MatchKey → List ClassMatch × List MatchKey
  | 0, _, st => st
  | fuel + 1, i, (found, seen) =>
    match execFrom (matcherMatchAt m) content i with
    | none => (found, seen)
    | some (startIndex, endIndex) =>
      let text := (content.drop startIndex).take (endIndex - startIndex)
      let classes := matcherExtractor m text
      let key : MatchKey := (startIndex, endIndex, text)
      if seen.contains key then
        matcherLoop content m fuel endIndex (found, seen)
      else
        match findOverlapping startIndex endIndex found with
        | some (existingIndex, overlappingMatch) =>
          let currentSpecificity := getPatternSpecificity (matcherFrameworks m)
          let existingSpecificity :=
            getPatternSpecificity (matcherFrameworks overlappingMatch.matcher)
          if currentSpecificity > existingSpecificity then
            matcherLoop content m fuel endIndex
              (found.eraseIdx existingIndex ++
                [{ matchText := text, classes := classes, matcher := m,
                   startIndex := startIndex, endIndex := endIndex }],
               key :: seen)
          else
            matcherLoop content m fuel endIndex (found, seen)
        | none =>
          matcherLoop content m fuel endIndex
            (found ++
              [{ matchText := text, classes := classes, matcher := m,
                 startIndex := startIndex, endIndex := endIndex }],
             key :: seen)

/-- Stable sort ascending by `startIndex` (the
`(a, b) => a.startIndex - b.startIndex` comparator of the final
`matches.sort`; `Array.prototype.sort` is stable, as is insertion
sort). -/
def sortByStartAsc (l : List ClassMatch) : List ClassMatch :=
  l.insertionSort (fun a b => a.startIndex ≤ b.startIndex)

/-- `patternRegistry.ts` `extractAllClassMatches`: run every relevant
matcher over the content (each starting from index `0`), deduplicate by
key, resolve overlaps by specificity, and sort the result by start
offset. -/
def extractAllClassMatches (content filePath : Str) : List ClassMatch :=
  let matchers := getPatternMatchersForFile filePath
  let st := matchers.foldl
    (fun st m => matcherLoop content m (content.length + 1) 0 st) ([], [])
  sortByStartAsc st.1

/-- Stable sort descending by `startIndex` (the
`(a, b) => b.original.startIndex - a.original.startIndex` comparator of
`applyClassReplacements`). -/
def sortByStartDesc (l : List (ClassMatch × List Str)) :
    List (ClassMatch × List Str) :=
  l.insertionSort (fun a b => b.1.startIndex ≤ a.1.startIndex)

/-- `patternRegistry.ts` `applyClassReplacements`: sort descending by
start offset, then splice each reconstructed attribute text over its
original span (`slice(0, start) + newMatch + slice(end)`). -/
def applyClassReplacements (content : Str)
    (replacements : List (ClassMatch × List Str)) : Str :=
  (sortByStartDesc replacements).foldl
    (fun newContent r =>
      let newMatch := matcherReconstructor r.1.matcher r.2 r.1.matchText
      newContent.take r.1.startIndex ++ newMatch ++ newContent.drop r.1.endIndex)
    content

/-!
## Conversion rules (`sizeConversion.ts`, `axisConversion.ts`,
`gapConversion.ts`, `colorOpacityConversion.ts`)

Each rule extracts class matches, processes every match through a
`SafeClassProcessor`, and splices the changed matches back.  The nested
`for` loops over same-value pairs are flattened into an explicit pair
list (in loop order) folded through `ClassUtils.replacePair`.  The
`try/catch` wrappers of the rules are not modelled: every operation in
the embedded pipeline is total, so the catch branches are unreachable.
-/

/-- `ConversionResult` of `conversionTypes.ts`. -/
structure ConversionResult where
  newContent : Str
  changed : Bool
deriving DecidableEq, Repr

/-- The `parsedClasses` computation shared by all rules: split the raw
value on spaces, drop empty fragments, parse each token and record its
index. -/
def parseTokens (classString : Str) : List ClassInfo :=
  let originalClasses := (splitChar ' ' classString).filter (fun c => c.length > 0)
  originalClasses.enum.map (fun e => { parseClassName e.2 with index := e.1 })

/-- The nested pair loops shared by `sizeConversion`, `createAxisConversion`
and `gapConversion`, flattened in iteration order: for each variant group,
for each token with base prefix `pA-` and each token with base prefix
`pB-` having the same extracted value, the pair of original texts and the
merged replacement token (`mkNew variant value`).  A pair is kept only if
the guard `if (value)` passes (a non-`null`, non-empty value). -/
def rulePairList (pA pB : Str) (mkNew : Str → Str → Str)
    (parsed : List ClassInfo) : List (Str × Str × Str) :=
  (ClassUtils.groupByVariant parsed).flatMap (fun g =>
    let variantGroup := g.2
    (ClassUtils.findClassesWithPrefix variantGroup pA).flatMap (fun a =>
      (ClassUtils.findClassesWithPrefix variantGroup pB).filterMap (fun b =>
        if ClassUtils.haveSameValue a.className b.className then
          match ClassUtils.extractValue a.className with
          | some value =>
            if value.length > 0 then some (a.original, b.original, mkNew g.1 value)
            else none
          | none => none
        else none)))

/-- Fold the pair list through `ClassUtils.replacePair`, tracking the
`matchModified` flag (set whenever a `replacePair` call returns true). -/
def runPairs (classString : Str) (pairs : List (Str × Str × Str)) :
    SafeClassProcessor × Bool :=
  pairs.foldl
    (fun st pr =>
      let r := ClassUtils.replacePair st.1 pr.1 pr.2.1 pr.2.2
      (r.1, st.2 || r.2))
    (ClassUtils.createProcessor classString, false)

/-- Per-match body of the pair-merging rules: run the pairs; if
`matchModified` and `execute().changed`, produce the new token list. -/
def processMatchPairs (pA pB : Str) (mkNew : Str → Str → Str)
    (classes : Str) : Option (List Str) :=
  let parsed := parseTokens classes
  let (p, matchModified) := runPairs classes (rulePairList pA pB mkNew parsed)
  if matchModified then
    let result := p.execute
    if result.changed then some result.newClasses else none
  else none

/-- The shared outer shape of every extraction-based rule: collect the
matches, process each, and splice the changed ones back (`changed` is set
exactly when a replacement is pushed). -/
def conversionWith (processMatch : Str → Option (List Str))
    (content filePath : Str) : ConversionResult :=
  let classMatches := extractAllClassMatches content filePath
  let replacements := classMatches.filterMap
    (fun m => (processMatch m.classes).map (fun ncs => (m, ncs)))
  { newContent :=
      if replacements.length > 0 then applyClassReplacements content replacements
      else content
    changed := replacements.length > 0 }

/-- `sizeConversion.ts` `sizeConversion` (the `filePath` parameter
defaults to `'unknown'` in the source and is explicit here): merge
same-valued `w-`/`h-` pairs into `size-`. -/
def sizeConversion (content filePath : Str) : ConversionResult :=
  conversionWith
    (processMatchPairs (strLit "w") (strLit "h")
      (fun variant value => variant ++ strLit "size-" ++ value))
    content filePath

/-- `axisConversion.ts` `createAxisConversion`: merge same-valued
`<p>x-`/`<p>y-` pairs into `<p>-`. -/
def createAxisConversion (pfx : Str) (content filePath : Str) : ConversionResult :=
  conversionWith
    (processMatchPairs (pfx ++ ['x']) (pfx ++ ['y'])
      (fun variant value => variant ++ pfx ++ ['-'] ++ value))
    content filePath

/-- `conversions.ts`: the `margin` rule is `createAxisConversion("m")`. -/
def marginConversion (content filePath : Str) : ConversionResult :=
  createAxisConversion (strLit "m") content filePath

/-- `conversions.ts`: the `padding` rule is `createAxisConversion("p")`. -/
def paddingConversion (content filePath : Str) : ConversionResult :=
  createAxisConversion (strLit "p") content filePath

/-- `gapConversion.ts`: the layout-mode gate — some parsed token has base
class exactly `flex`/`grid` or starting with `flex-`/`grid-`. -/
def overallHasFlexOrGrid (parsed : List ClassInfo) : Bool :=
  parsed.any (fun p =>
    p.className == strLit "flex" || p.className == strLit "grid" ||
    jsStartsWith p.className (strLit "flex-") ||
    jsStartsWith p.className (strLit "grid-"))

/-- Per-match body of `gapConversion`: skip the whole occurrence unless
the gate passes, otherwise merge same-valued `space-x-`/`space-y-` pairs
into `gap-`. -/
def processMatchGap (classes : Str) : Option (List Str) :=
  let parsed := parseTokens classes
  if !overallHasFlexOrGrid parsed then none
  else
    processMatchPairs (strLit "space-x") (strLit "space-y")
      (fun variant value => variant ++ strLit "gap-" ++ value) classes

/-- `gapConversion.ts` `gapConversion`. -/
def gapConversion (content filePath : Str) : ConversionResult :=
  conversionWith processMatchGap content filePath

/-- `colorOpacityConversion.ts`: the fixed role list. -/
def colorPrefixes : List Str :=
  [strLit "bg", strLit "text", strLit "border", strLit "ring",
   strLit "divide", strLit "placeholder"]

/-- Pair list of `colorOpacityConversion`, flattened in iteration order:
per variant group and per role, color classes (role prefix, not the
role's `-opacity-` sub-prefix, no `/`) crossed with the role's opacity
classes; the merged token is `variant + colorBase + "/" + opacityValue`
guarded by `if (opacityValue)`. -/
def colorPairList (parsed : List ClassInfo) : List (Str × Str × Str) :=
  (ClassUtils.groupByVariant parsed).flatMap (fun g =>
    let variantGroup := g.2
    colorPrefixes.flatMap (fun pfx =>
      let colorClasses := variantGroup.filter (fun p =>
        jsStartsWith p.className (pfx ++ ['-']) &&
        !jsStartsWith p.className (pfx ++ strLit "-opacity-") &&
        !jsIncludesChar p.className '/')
      let opacityClasses := variantGroup.filter (fun p =>
        jsStartsWith p.className (pfx ++ strLit "-opacity-"))
      colorClasses.flatMap (fun c =>
        opacityClasses.filterMap (fun o =>
          match ClassUtils.extractValue o.className with
          | some opacityValue =>
            if opacityValue.length > 0 then
              some (c.original, o.original, g.1 ++ c.className ++ '/' :: opacityValue)
            else none
          | none => none))))

/-- Per-match body of `colorOpacityConversion`. -/
def processMatchColorOpacity (classes : Str) : Option (List Str) :=
  let parsed := parseTokens classes
  let (p, matchModified) := runPairs classes (colorPairList parsed)
  if matchModified then
    let result := p.execute
    if result.changed then some result.newClasses else none
  else none

/-- `colorOpacityConversion.ts` `colorOpacityConversion`. -/
def colorOpacityConversion (content filePath : Str) : ConversionResult :=
  conversionWith processMatchColorOpacity content filePath

/-!
## Error handler (`errorHandler.ts`)

Only the state the claims speak about is modelled: the error kind, the
`recoverable` flag, the per-kind counters.  Console formatting and the
unimplemented `logToErrorReport` are pure side channels.
-/

/-- `ErrorContext['type']` of `conversionTypes.ts`. -/
inductive ErrorType where
  | file
  | content
  | git
  | config
deriving DecidableEq, Repr

/-- `ErrorHandler.errorCounts`: one counter per error kind. -/
structure ErrorCounts where
  file : Nat
  content : Nat
  git : Nat
  config : Nat
deriving DecidableEq, Repr

/-- `this.errorCounts[type]`. -/
def ErrorCounts.get (c : ErrorCounts) : ErrorType → Nat
  | .file => c.file
  | .content => c.content
  | .git => c.git
  | .config => c.config

/-- `this.errorCounts[type]++`. -/
def ErrorCounts.incr (c : ErrorCounts) : ErrorType → ErrorCounts
  | .file => { c with file := c.file + 1 }
  | .content => { c with content := c.content + 1 }
  | .git => { c with git := c.git + 1 }
  | .config => { c with config := c.config + 1 }

/-- `initSession` resets every counter. -/
def initialErrorCounts : ErrorCounts := ⟨0, 0, 0, 0⟩

/-- `ConversionError`: the classified-error data the propagation policy
reads (`context.type` and `recoverable`). -/
structure ConversionError where
  etype : ErrorType
  recoverable : Bool
deriving DecidableEq, Repr

/-- `FileSystemError` (recoverable, kind `file`; the constructor defaults
`recoverable` to `true`). -/
def mkFileSystemError : ConversionError := ⟨.file, true⟩

/-- `ContentProcessingError` (recoverable, kind `content`). -/
def mkContentProcessingError : ConversionError := ⟨.content, true⟩

/-- `GitError` (recoverable, kind `git`). -/
def mkGitError : ConversionError := ⟨.git, true⟩

/-- `ConfigurationError` (kind `config`, constructed with
`recoverable = false`). -/
def mkConfigurationError : ConversionError := ⟨.config, false⟩

/-- `ErrorHandler.recordError`: increment the counter of the error's
kind (console output and the in-memory report are not modelled). -/
def recordError (counts : ErrorCounts) (e : ConversionError) : ErrorCounts :=
  counts.incr e.etype

/-- `ErrorHandler.shouldContinueProcessing`: `false` for non-recoverable
errors; otherwise continue while the counter of the error's kind is
strictly below the fixed `errorThreshold = 10`. -/
def shouldContinueProcessing (counts : ErrorCounts) (e : ConversionError) : Bool :=
  if !e.recoverable then false
  else
    let errorThreshold := 10
    counts.get e.etype < errorThreshold

/-!
## Parallel scheduler (`parallelProcessor.ts`)

The file system and the conversion table are abstracted into an oracle
`Str → Bool × Bool` giving, per path, the `(success, changed)` outcome of
`FileWorker.processFile` (whose per-file `try/catch` turns every failure
into a failed `WorkerResult`, so `processChunk` is total and
`Promise.all` never rejects — the batch-level catch branch is dead).
The memory monitor only delays scheduling and is not modelled.  Progress
callbacks are recorded as a trace of `(processed, total, currentFile)`
triples.
-/

/-- `WorkerResult` (processing time omitted). -/
structure WorkerResult where
  filePath : Str
  success : Bool
  changed : Bool
deriving DecidableEq, Repr

/-- `ProcessingResult` of `conversionTypes.ts` as populated by the
scheduler: `success` and `changes` (`1` when the file changed, else `0`;
a failed file reports no `changes` field, modelled as `0`). -/
structure ProcessingResult where
  success : Bool
  changes : Nat
deriving DecidableEq, Repr

/-- One progress-callback invocation `(processed, total, currentFile)`. -/
abbrev ProgressCall := Nat × Nat × Str

/-- `FileWorker.processChunk`: process the chunk's files one at a time in
order, every outcome (success or caught failure) becoming a
`WorkerResult`. -/
def processChunk (oracle : Str → Bool × Bool) (files : List Str) :
    List WorkerResult :=
  files.map (fun filePath =>
    let r := oracle filePath
    { filePath := filePath, success := r.1, changed := r.2 })

/-- Fuel-driven body of `ChunkDistributor.distributeFiles`'s
`for (i = 0; i < length; i += chunkSize)` loop. -/
def distributeAux (chunkSize : Nat) : Nat → List Str → List (List Str)
  | _, [] => []
  | 0, _ => []
  | fuel + 1, files =>
    files.take chunkSize :: distributeAux chunkSize fuel (files.drop chunkSize)

/-- `ChunkDistributor.distributeFiles`: consecutive slices of `chunkSize`
files.  The source loop does not terminate for `chunkSize = 0`; that
value is unreachable (`calculateOptimalChunkSize` returns at least 1) and
is mapped to `[]` here. -/
def distributeFiles (files : List Str) (chunkSize : Nat) : List (List Str) :=
  if chunkSize = 0 then [] else distributeAux chunkSize files.length files

/-- Fuel-driven grouping of chunks into batches of `maxWorkers`
(`fileChunks.slice(i, i + maxWorkers)` with `i += maxWorkers`). -/
def batchAux (maxWorkers : Nat) : Nat → List (List Str) → List (List (List Str))
  | _, [] => []
  | 0, _ => []
  | fuel + 1, chunks =>
    chunks.take maxWorkers :: batchAux maxWorkers fuel (chunks.drop maxWorkers)

/-- Batches of at most `maxWorkers` chunks, processed concurrently; a
zero worker limit is unreachable (`getOptimalWorkerCount` returns at
least 1) and maps to no batches. -/
def batchChunks (chunks : List (List Str)) (maxWorkers : Nat) :
    List (List (List Str)) :=
  if maxWorkers = 0 then [] else batchAux maxWorkers chunks.length chunks

/-- Result-collection step of `ParallelProcessor.processFiles`: for each
flattened `WorkerResult` (batch by batch, chunk by chunk, in order), the
progress aggregator increments its counter and invokes the callback with
`(processedFiles, totalFiles, workerResult.filePath)`, and a
`ProcessingResult` is pushed. -/
def collectResults (total : Nat) :
    List WorkerResult → Nat → List ProcessingResult × List ProgressCall
  | [], _ => ([], [])
  | wr :: rest, processed =>
    let (results, calls) := collectResults total rest (processed + 1)
    (({ success := wr.success, changes := if wr.changed then 1 else 0 }) :: results,
     (processed + 1, total, wr.filePath) :: calls)

/-- `ParallelProcessor.processFiles`: distribute into chunks, process
batches of at most `maxWorkers` chunks (`Promise.all` preserves chunk
order inside a batch), flatten the worker results and collect
results/progress in that order.  Returns the result list and the
progress-callback trace. -/
def processFiles (files : List Str) (oracle : Str → Bool × Bool)
    (maxWorkers chunkSize : Nat) : List ProcessingResult × List ProgressCall :=
  let chunks := distributeFiles files chunkSize
  let batches := batchChunks chunks maxWorkers
  let flat := (batches.map (fun batch =>
    (batch.map (processChunk oracle)).flatten)).flatten
  collectResults files.length flat 0

/-- `ParallelProcessor.processFilesSequential`: for each file, the
callback is invoked with `(i, files.length, filePath)` *before* the file
is processed, then the single-file chunk is processed and its result
recorded. -/
def processFilesSequential (files : List Str) (oracle : Str → Bool × Bool) :
    List ProcessingResult × List ProgressCall :=
  let entries := files.enum
  (entries.map (fun e =>
      let r := oracle e.2
      { success := r.1, changes := if r.2 then 1 else 0 : ProcessingResult }),
   entries.map (fun e => (e.1, files.length, e.2)))

/-!
## Specification-side definitions

The following definitions are written from the wording of the
specification and of the claims (not from the source); the theorems
below compare them with the embedded source functions.
-/

/-- The tokens of one attribute occurrence: the raw value split on
spaces with empty fragments dropped (shared by snapshot and parser). -/
def tokensOf (classes : Str) : List Str :=
  (splitChar ' ' classes).filter (fun c => c.length > 0)

/-- Spec-side fate of one snapshot position (claim C3, amended): the
first-recorded intent for the position governs — a removal drops the
token, a replacement with non-empty new text substitutes it, a
replacement whose new text is empty (or absent) drops the token; a
position with no intent passes its token through. -/
def specStep (marks : List ClassMark) (e : Nat × Str) : Option Str :=
  match marks.find? (fun m => m.index == e.1) with
  | some mark =>
    match mark.operation with
    | .remove => none
    | .replace =>
      match mark.replacement with
      | some r => if r.length > 0 then some r else none
      | none => none
  | none => some e.2

/-- Spec-side reading of `execute` (claim C3, amended): walk the original
snapshot once in original order applying `specStep` at each position,
then append all additions at the end. -/
def executeSpecTokens (snapshot : List Str) (marks : List ClassMark)
    (additions : List Str) : List Str :=
  snapshot.enum.filterMap (specStep marks) ++ additions

/-- Spec-side reading of the successful (`both removals succeed`) path of
`replacePair`: both removal marks are recorded and the merged token is
added; the reset branch is never taken. -/
def replacePairApplied (p : SafeClassProcessor) (class1 class2 replacement : Str) :
    SafeClassProcessor × Bool :=
  let (p1, _) := p.markForRemoval class1
  let (p2, _) := p1.markForRemoval class2
  (p2.addClass replacement, true)

/-- `runPairs` with every `replacePair` call replaced by its no-reset
path (claim C10: the reset branch is unreachable during rule
processing). -/
def runPairsApplied (classString : Str) (pairs : List (Str × Str × Str)) :
    SafeClassProcessor × Bool :=
  pairs.foldl
    (fun st pr =>
      let r := replacePairApplied st.1 pr.1 pr.2.1 pr.2.2
      (r.1, st.2 || r.2))
    (ClassUtils.createProcessor classString, false)

/-- A replacement segment: start offset, end offset, replacement text. -/
abbrev Seg := Nat × Nat × Str

/-- The segment of one replacement entry: its span and its reconstructed
attribute text. -/
def toSeg (r : ClassMatch × List Str) : Seg :=
  (r.1.startIndex, r.1.endIndex,
   matcherReconstructor r.1.matcher r.2 r.1.matchText)

/-- Spec-side segment renderer (claim C2): for segments listed in
ascending span order, the output is the untouched text before each span,
the replacement text over the span, and — past each span's end — the
rendering of the remaining segments; characters outside all spans are
passed through verbatim. -/
def ascRender (c : Str) : List Seg → Str
  | [] => c
  | seg :: rest => c.take seg.1 ++ seg.2.2 ++ (ascRender c rest).drop seg.2.1

/-- Well-formed segment lists over a string of length `n`: starting at or
after `lo`, each span is non-empty, ends within the string, and ends
before the next span starts. -/
def SegsChain (n : Nat) : Nat → List Seg → Prop
  | _, [] => True
  | lo, seg :: rest =>
    lo ≤ seg.1 ∧ seg.1 < seg.2.1 ∧ seg.2.1 ≤ n ∧ SegsChain n seg.2.1 rest

/-- One splice (`slice(0, start) + text + slice(end)`) of a segment. -/
def spliceSeg (c : Str) (seg : Seg) : Str :=
  c.take seg.1 ++ seg.2.2 ++ c.drop seg.2.1

/-!
## Helper lemmas
-/

theorem jsIndexOf_eq_none_iff (l : List Str) (x : Str) :
    jsIndexOf l x = none ↔ x ∉ l := by
  induction l with
  | nil => simp [jsIndexOf]
  | cons y rest ih =>
    by_cases h : y = x
    · subst h
      simp [jsIndexOf]
    · simp [jsIndexOf, h, ih, Option.map_eq_none', Ne.symm h]

theorem exists_jsIndexOf_of_mem {l : List Str} {x : Str} (h : x ∈ l) :
    ∃ i, jsIndexOf l x = some i := by
  cases hj : jsIndexOf l x with
  | none => exact absurd ((jsIndexOf_eq_none_iff l x).mp hj) (not_not_intro h)
  | some i => exact ⟨i, rfl⟩

theorem markForRemoval_of_not_mem {p : SafeClassProcessor} {c : Str}
    (h : c ∉ p.originalClasses) : p.markForRemoval c = (p, false) := by
  simp [SafeClassProcessor.markForRemoval, (jsIndexOf_eq_none_iff _ _).mpr h]

theorem markForRemoval_of_mem {p : SafeClassProcessor} {c : Str}
    (h : c ∈ p.originalClasses) :
    ∃ i, p.markForRemoval c =
      ({ p with marks := p.marks ++
          [{ index := i, operation := .remove, original := c }] }, true) := by
  obtain ⟨i, hi⟩ := exists_jsIndexOf_of_mem h
  exact ⟨i, by simp [SafeClassProcessor.markForRemoval, hi]⟩

theorem markForRemoval_fst_originalClasses (p : SafeClassProcessor) (c : Str) :
    (p.markForRemoval c).1.originalClasses = p.originalClasses := by
  cases hj : jsIndexOf p.originalClasses c <;>
    simp [SafeClassProcessor.markForRemoval, hj]

theorem markForRemoval_snd_iff (p : SafeClassProcessor) (c : Str) :
    (p.markForRemoval c).2 = true ↔ c ∈ p.originalClasses := by
  cases hj : jsIndexOf p.originalClasses c with
  | none =>
    simp [SafeClassProcessor.markForRemoval, hj,
      (jsIndexOf_eq_none_iff p.originalClasses c).mp hj]
  | some i =>
    have hmem : c ∈ p.originalClasses := by
      by_contra hc
      rw [(jsIndexOf_eq_none_iff p.originalClasses c).mpr hc] at hj
      cases hj
    simp [SafeClassProcessor.markForRemoval, hj, hmem]

theorem replacePair_eq_applied (p : SafeClassProcessor) (c1 c2 r : Str)
    (h1 : c1 ∈ p.originalClasses) (h2 : c2 ∈ p.originalClasses) :
    ClassUtils.replacePair p c1 c2 r = replacePairApplied p c1 c2 r := by
  obtain ⟨i1, e1⟩ := markForRemoval_of_mem h1
  have h2' : c2 ∈ ({ p with marks := p.marks ++
      [{ index := i1, operation := .remove, original := c1 }] } :
        SafeClassProcessor).originalClasses := h2
  obtain ⟨i2, e2⟩ := markForRemoval_of_mem h2'
  simp [ClassUtils.replacePair, replacePairApplied, e1, e2]

theorem replacePairApplied_originalClasses (p : SafeClassProcessor) (c1 c2 r : Str) :
    (replacePairApplied p c1 c2 r).1.originalClasses = p.originalClasses := by
  have o1 := markForRemoval_fst_originalClasses p c1
  cases e1 : p.markForRemoval c1 with
  | mk p1 b1 =>
    rw [e1] at o1
    have o2 := markForRemoval_fst_originalClasses p1 c2
    cases e2 : p1.markForRemoval c2 with
    | mk p2 b2 =>
      rw [e2] at o2
      simp [replacePairApplied, e1, e2, SafeClassProcessor.addClass]
      rw [o2, o1]

theorem foldPairs_eq_applied :
    ∀ (ps : List (Str × Str × Str)) (st : SafeClassProcessor × Bool),
    (∀ pr ∈ ps, pr.1 ∈ st.1.originalClasses ∧ pr.2.1 ∈ st.1.originalClasses) →
    ps.foldl
      (fun st pr =>
        let r := ClassUtils.replacePair st.1 pr.1 pr.2.1 pr.2.2
        (r.1, st.2 || r.2)) st =
    ps.foldl
      (fun st pr =>
        let r := replacePairApplied st.1 pr.1 pr.2.1 pr.2.2
        (r.1, st.2 || r.2)) st := by
  intro ps
  induction ps with
  | nil => intro st _; rfl
  | cons pr rest ih =>
    intro st h
    have hm := h pr (List.mem_cons_self pr rest)
    have hstep := replacePair_eq_applied st.1 pr.1 pr.2.1 pr.2.2 hm.1 hm.2
    rw [List.foldl_cons, List.foldl_cons, hstep]
    apply ih
    intro q hq
    have hq' := h q (List.mem_cons_of_mem pr hq)
    simpa [replacePairApplied_originalClasses] using hq'

theorem createProcessor_originalClasses (classString : Str) :
    (ClassUtils.createProcessor classString).originalClasses = tokensOf classString := rfl

theorem runPairs_eq_applied (classString : Str) (ps : List (Str × Str × Str))
    (h : ∀ pr ∈ ps, pr.1 ∈ tokensOf classString ∧ pr.2.1 ∈ tokensOf classString) :
    runPairs classString ps = runPairsApplied classString ps := by
  unfold runPairs runPairsApplied
  exact foldPairs_eq_applied ps (ClassUtils.createProcessor classString, false)
    (by simpa [createProcessor_originalClasses] using h)

theorem snd_mem_of_mem_enumFrom {α : Type} :
    ∀ (l : List α) (n : Nat) (e : Nat × α), e ∈ l.enumFrom n → e.2 ∈ l := by
  intro l
  induction l with
  | nil => intro n e h; cases h
  | cons a rest ih =>
    intro n e h
    simp only [List.enumFrom] at h
    rcases List.mem_cons.mp h with rfl | h2
    · exact List.mem_cons_self a rest
    · exact List.mem_cons_of_mem a (ih (n + 1) e h2)

theorem parseTokens_original_mem (classes : Str) (ci : ClassInfo)
    (h : ci ∈ parseTokens classes) : ci.original ∈ tokensOf classes := by
  simp only [parseTokens, List.mem_map] at h
  obtain ⟨e, he, rfl⟩ := h
  have : e.2 ∈ (splitChar ' ' classes).filter (fun c => c.length > 0) :=
    snd_mem_of_mem_enumFrom _ 0 e he
  simpa [parseClassName, tokensOf] using this

theorem groupFold_sub (P : ClassInfo → Prop) :
    ∀ (l : List ClassInfo) (acc : List (Str × List ClassInfo)),
    (∀ g ∈ acc, ∀ ci ∈ g.2, P ci) → (∀ ci ∈ l, P ci) →
    ∀ g ∈ l.foldl
      (fun acc classInfo =>
        if acc.any (fun g => g.1 == classInfo.variants) then
          acc.map (fun g =>
            if g.1 == classInfo.variants then (g.1, g.2 ++ [classInfo]) else g)
        else acc ++ [(classInfo.variants, [classInfo])]) acc,
    ∀ ci ∈ g.2, P ci := by
  intro l
  induction l with
  | nil => intro acc hacc _ g hg ci hci; exact hacc g hg ci hci
  | cons x rest ih =>
    intro acc hacc hl
    rw [List.foldl_cons]
    apply ih
    · intro g hg ci hci
      by_cases hx : acc.any (fun g => g.1 == x.variants) = true
      · simp only [hx, if_true] at hg
        obtain ⟨g0, hg0, rfl⟩ := List.mem_map.mp hg
        by_cases he : (g0.1 == x.variants) = true
        · simp only [he, if_true] at hci
          rcases List.mem_append.mp hci with hin | hone
          · exact hacc g0 hg0 ci hin
          · rw [List.mem_singleton.mp hone]
            exact hl x (List.mem_cons_self x rest)
        · simp only [he, if_false] at hci
          exact hacc g0 hg0 ci hci
      · simp only [eq_false_of_ne_true hx, if_false] at hg
        rcases List.mem_append.mp hg with hin | hone
        · exact hacc g hin ci hci
        · rw [List.mem_singleton.mp hone] at hci
          rw [List.mem_singleton.mp hci]
          exact hl x (List.mem_cons_self x rest)
    · intro ci hci
      exact hl ci (List.mem_cons_of_mem x hci)

theorem groupByVariant_sub (l : List ClassInfo) (g : Str × List ClassInfo)
    (hg : g ∈ ClassUtils.groupByVariant l) (ci : ClassInfo) (hci : ci ∈ g.2) :
    ci ∈ l :=
  groupFold_sub (fun ci => ci ∈ l) l [] (by simp) (fun _ h => h) g hg ci hci

theorem rulePairList_mem (pA pB : Str) (mkNew : Str → Str → Str)
    (parsed : List ClassInfo) (pr : Str × Str × Str)
    (h : pr ∈ rulePairList pA pB mkNew parsed) :
    ∃ a ∈ parsed, ∃ b ∈ parsed, pr.1 = a.original ∧ pr.2.1 = b.original := by
  simp only [rulePairList, List.mem_flatMap] at h
  obtain ⟨g, hgmem, h⟩ := h
  obtain ⟨a, hamem, h⟩ := h
  simp only [List.mem_filterMap] at h
  obtain ⟨b, hbmem, hf⟩ := h
  have hamem' : a ∈ parsed :=
    groupByVariant_sub parsed g hgmem a
      (List.mem_filter.mp hamem).1
  have hbmem' : b ∈ parsed :=
    groupByVariant_sub parsed g hgmem b
      (List.mem_filter.mp hbmem).1
  by_cases hsv : ClassUtils.haveSameValue a.className b.className = true
  · rw [if_pos hsv] at hf
    cases hev : ClassUtils.extractValue a.className with
    | none => rw [hev] at hf; cases hf
    | some v =>
      rw [hev] at hf
      have hf2 : (if List.length v > 0 then
          some (a.original, b.original, mkNew g.1 v) else none) = some pr := hf
      by_cases hlen : List.length v > 0
      · rw [if_pos hlen] at hf2
        cases hf2
        exact ⟨a, hamem', b, hbmem', rfl, rfl⟩
      · rw [if_neg hlen] at hf2; cases hf2
  · rw [if_neg hsv] at hf; cases hf

theorem colorPairList_mem (parsed : List ClassInfo) (pr : Str × Str × Str)
    (h : pr ∈ colorPairList parsed) :
    ∃ a ∈ parsed, ∃ b ∈ parsed, pr.1 = a.original ∧ pr.2.1 = b.original := by
  simp only [colorPairList, List.mem_flatMap] at h
  obtain ⟨g, hgmem, h⟩ := h
  obtain ⟨pfx, _, h⟩ := h
  obtain ⟨a, hamem, h⟩ := h
  simp only [List.mem_filterMap] at h
  obtain ⟨b, hbmem, hf⟩ := h
  have hamem' : a ∈ parsed :=
    groupByVariant_sub parsed g hgmem a (List.mem_filter.mp hamem).1
  have hbmem' : b ∈ parsed :=
    groupByVariant_sub parsed g hgmem b (List.mem_filter.mp hbmem).1
  cases hev : ClassUtils.extractValue b.className with
  | none => rw [hev] at hf; cases hf
  | some v =>
    rw [hev] at hf
    have hf2 : (if List.length v > 0 then
        some (a.original, b.original, g.1 ++ a.className ++ '/' :: v)
        else none) = some pr := hf
    by_cases hlen : List.length v > 0
    · rw [if_pos hlen] at hf2
      cases hf2
      exact ⟨a, hamem', b, hbmem', rfl, rfl⟩
    · rw [if_neg hlen] at hf2; cases hf2

theorem rulePairList_tokens (pA pB : Str) (mkNew : Str → Str → Str)
    (classes : Str) (pr : Str × Str × Str)
    (h : pr ∈ rulePairList pA pB mkNew (parseTokens classes)) :
    pr.1 ∈ tokensOf classes ∧ pr.2.1 ∈ tokensOf classes := by
  obtain ⟨a, ha, b, hb, e1, e2⟩ := rulePairList_mem pA pB mkNew _ pr h
  exact ⟨e1 ▸ parseTokens_original_mem classes a ha,
         e2 ▸ parseTokens_original_mem classes b hb⟩

theorem colorPairList_tokens (classes : Str) (pr : Str × Str × Str)
    (h : pr ∈ colorPairList (parseTokens classes)) :
    pr.1 ∈ tokensOf classes ∧ pr.2.1 ∈ tokensOf classes := by
  obtain ⟨a, ha, b, hb, e1, e2⟩ := colorPairList_mem _ pr h
  exact ⟨e1 ▸ parseTokens_original_mem classes a ha,
         e2 ▸ parseTokens_original_mem classes b hb⟩

theorem executeStep_fst (marks : List ClassMark) (acc : List Str × List ClassOperation)
    (e : Nat × Str) :
    (executeStep marks acc e).1 = acc.1 ++ (specStep marks e).toList := by
  rcases acc with ⟨result, operations⟩
  rcases e with ⟨i, className⟩
  cases hfind : marks.find? (fun m => m.index == i) with
  | none => simp [executeStep, specStep, hfind]
  | some mark =>
    cases hop : mark.operation with
    | remove => simp [executeStep, specStep, hfind, hop]
    | replace =>
      cases hrep : mark.replacement with
      | none => simp [executeStep, specStep, hfind, hop, hrep]
      | some r =>
        by_cases hlen : r.length > 0 <;>
          simp [executeStep, specStep, hfind, hop, hrep, hlen]

theorem executeFold_fst (marks : List ClassMark) :
    ∀ (l : List (Nat × Str)) (acc : List Str × List ClassOperation),
    (l.foldl (executeStep marks) acc).1 = acc.1 ++ l.filterMap (specStep marks) := by
  intro l
  induction l with
  | nil => intro acc; simp
  | cons e rest ih =>
    intro acc
    rw [List.foldl_cons, ih, executeStep_fst]
    cases hs : specStep marks e <;> simp [hs, List.filterMap_cons]

/-!
## Claim theorems
-/

/-- C3 (amended): `execute` walks the snapshot once in original order; at
each position it applies only the first-recorded intent for that position
— a removal drops the token, a replacement with non-empty new text
substitutes it, and a replacement whose new text is empty drops the
token instead of substituting it; positions with no intent pass through
unchanged; all added tokens are appended after all original positions;
`changed` is true exactly when at least one intent was recorded, even if
the resulting token list is textually identical to the original. -/
theorem execute_matches_spec (p : SafeClassProcessor) :
    p.execute.newClasses = executeSpecTokens p.originalClasses p.marks p.additions ∧
    (p.execute.changed = true ↔ p.marks ≠ [] ∨ p.additions ≠ []) := by
  constructor
  · simp only [SafeClassProcessor.execute, executeSpecTokens]
    rw [executeFold_fst]
    simp
  · simp [SafeClassProcessor.execute, List.length_pos]

/-- Closed instance of `execute_matches_spec` at a concrete processor
with one recorded removal mark. -/
theorem execute_matches_spec_witness :
    (SafeClassProcessor.mk [strLit "a"]
        [{ index := 0, operation := .remove, original := strLit "a" }] []).execute.newClasses =
      executeSpecTokens [strLit "a"]
        [{ index := 0, operation := .remove, original := strLit "a" }] [] ∧
    (SafeClassProcessor.mk [strLit "a"]
        [{ index := 0, operation := .remove, original := strLit "a" }] []).execute.changed = true :=
  ⟨(execute_matches_spec _).1, (execute_matches_spec _).2.mpr (Or.inl (by decide))⟩

/-- C3 counterexample: a replace intent recorded with empty new text.
The claim says the replacement substitutes its new text (so the result
would be the one-element list holding the empty token), but `execute`
drops the token (the truthiness guard on `mark.replacement` fails for
the empty string), producing the empty list. -/
theorem execute_empty_replacement_drops :
    ((SafeClassProcessor.mk' [strLit "a"]).markForReplacement (strLit "a") []).2 = true ∧
    ((SafeClassProcessor.mk' [strLit "a"]).markForReplacement
        (strLit "a") []).1.execute.newClasses = [] ∧
    ((SafeClassProcessor.mk' [strLit "a"]).markForReplacement
        (strLit "a") []).1.execute.changed = true ∧
    ([] : List Str) ≠ [([] : Str)] := by decide

/-- C4: `replacePair` appends the merged token and returns true exactly
when both removal markings succeed (both token texts occur in the
snapshot); when exactly one of the two markings succeeds the processor
state is reset — every accumulated mark and addition cleared, so neither
half of the pair remains applied — and the call returns false. -/
theorem replacePair_transactional (p : SafeClassProcessor) (c1 c2 r : Str) :
    ((ClassUtils.replacePair p c1 c2 r).2 = true ↔
      c1 ∈ p.originalClasses ∧ c2 ∈ p.originalClasses) ∧
    (c1 ∈ p.originalClasses → c2 ∈ p.originalClasses →
      (ClassUtils.replacePair p c1 c2 r).1.additions = p.additions ++ [r]) ∧
    ((c1 ∈ p.originalClasses ↔ c2 ∉ p.originalClasses) →
      (ClassUtils.replacePair p c1 c2 r).2 = false ∧
      (ClassUtils.replacePair p c1 c2 r).1 = p.reset) := by
  by_cases h1 : c1 ∈ p.originalClasses <;> by_cases h2 : c2 ∈ p.originalClasses
  · obtain ⟨i1, e1⟩ := markForRemoval_of_mem h1
    have h2' : c2 ∈ ({ p with marks := p.marks ++
        [{ index := i1, operation := .remove, original := c1 }] } :
          SafeClassProcessor).originalClasses := h2
    obtain ⟨i2, e2⟩ := markForRemoval_of_mem h2'
    refine ⟨?_, ?_, ?_⟩
    · simp [ClassUtils.replacePair, e1, e2, SafeClassProcessor.addClass, h1, h2]
    · intro _ _
      simp [ClassUtils.replacePair, e1, e2, SafeClassProcessor.addClass]
    · intro hx
      exact absurd h2 (hx.mp h1)
  · obtain ⟨i1, e1⟩ := markForRemoval_of_mem h1
    have h2' : c2 ∉ ({ p with marks := p.marks ++
        [{ index := i1, operation := .remove, original := c1 }] } :
          SafeClassProcessor).originalClasses := h2
    have e2 := markForRemoval_of_not_mem h2'
    refine ⟨?_, ?_, ?_⟩
    · simp [ClassUtils.replacePair, e1, e2, h2]
    · intro _ hc2; exact absurd hc2 h2
    · intro _
      constructor
      · simp [ClassUtils.replacePair, e1, e2]
      · simp [ClassUtils.replacePair, e1, e2, SafeClassProcessor.reset]
  · have e1 := markForRemoval_of_not_mem h1
    obtain ⟨i2, e2⟩ := markForRemoval_of_mem h2
    refine ⟨?_, ?_, ?_⟩
    · simp [ClassUtils.replacePair, e1, e2, h1]
    · intro hc1; exact absurd hc1 h1
    · intro _
      constructor
      · simp [ClassUtils.replacePair, e1, e2]
      · simp [ClassUtils.replacePair, e1, e2, SafeClassProcessor.reset]
  · have e1 := markForRemoval_of_not_mem h1
    have e2 := markForRemoval_of_not_mem h2
    refine ⟨?_, ?_, ?_⟩
    · simp [ClassUtils.replacePair, e1, e2, h1]
    · intro hc1; exact absurd hc1 h1
    · intro hx
      exact absurd (hx.mpr h2) h1

/-- Closed instance of `replacePair_transactional`: one half of the pair
is absent from the snapshot, so the call fails and the state is reset. -/
theorem replacePair_transactional_witness :
    (ClassUtils.replacePair (SafeClassProcessor.mk' [strLit "w-4"])
        (strLit "w-4") (strLit "h-4") (strLit "size-4")).2 = false ∧
    (ClassUtils.replacePair (SafeClassProcessor.mk' [strLit "w-4"])
        (strLit "w-4") (strLit "h-4") (strLit "size-4")).1 =
      (SafeClassProcessor.mk' [strLit "w-4"]).reset :=
  (replacePair_transactional (SafeClassProcessor.mk' [strLit "w-4"])
    (strLit "w-4") (strLit "h-4") (strLit "size-4")).2.2 (by decide)

/-- C10: in every conversion rule the token texts handed to
`replacePair` are original texts of tokens parsed from the same
whitespace-split class string from which the processor snapshot was
built, so both `markForRemoval` lookups succeed and the reset branch of
`replacePair` is unreachable: running the rule pair list through
`replacePair` coincides with running it through the no-reset path.  The
first equation covers the size, margin, padding and gap rules (all
instances of `rulePairList`); the second covers the color-opacity
rule. -/
theorem rules_replacePair_never_resets (pA pB : Str) (mkNew : Str → Str → Str)
    (classes : Str) :
    runPairs classes (rulePairList pA pB mkNew (parseTokens classes)) =
      runPairsApplied classes (rulePairList pA pB mkNew (parseTokens classes)) ∧
    runPairs classes (colorPairList (parseTokens classes)) =
      runPairsApplied classes (colorPairList (parseTokens classes)) :=
  ⟨runPairs_eq_applied _ _ (fun pr hpr => rulePairList_tokens pA pB mkNew classes pr hpr),
   runPairs_eq_applied _ _ (fun pr hpr => colorPairList_tokens classes pr hpr)⟩

/-- C1: on a `.tsx` file whose content interleaves mismatched quote
characters, the React `className` pattern produces a match that overlaps
two already-accepted matches of the generic `class` pattern; overlap
resolution removes only the first overlapping entry, so the returned
list still holds two matches with overlapping half-open ranges
`[9, 28)` and `[21, 30)` — `21 < 28` and `9 < 30`, so the ranges
intersect. -/
theorem extractAllClassMatches_overlap_bug :
    (extractAllClassMatches (strLit "class='a className=' class=\"w\"")
        (strLit "f.tsx")).map (fun m => (m.startIndex, m.endIndex)) =
      [(9, 28), (21, 30)] ∧
    21 < 28 ∧ 9 < 30 := by decide

/-- C5: `sizeConversion` is not idempotent.  On an attribute value with
duplicate tokens, every removal marking resolves to the first occurrence
of the token text, so the duplicate `w-4` and `h-4` survive the first
pass (which also appends one merged token per cross-product pair); the
survivors form a mergeable pair and the second pass reports
`changed = true`. -/
theorem sizeConversion_not_idempotent :
    (sizeConversion (strLit "class=\"w-4 w-4 h-4 h-4\"") (strLit "test.html")).newContent
      = strLit "class=\"w-4 h-4 size-4 size-4 size-4 size-4\"" ∧
    (sizeConversion (strLit "class=\"w-4 w-4 h-4 h-4\"") (strLit "test.html")).changed
      = true ∧
    (sizeConversion
        (sizeConversion (strLit "class=\"w-4 w-4 h-4 h-4\"") (strLit "test.html")).newContent
        (strLit "test.html")).changed = true := by decide

/-- C7 counterexample: on a Vue file the `v-bind:class` pattern matches
the span `[0, 16)`, overlapping the accepted `:class` match `[6, 16)`,
and both come from the same specificity rank (3 = 3): the kept match
does not rank strictly higher than the discarded one, so the ranking is
not tie-free. -/
theorem specificity_tie_cex :
    (extractAllClassMatches (strLit "v-bind:class=\"a\"") (strLit "a.vue")).map
        (fun m => (m.matcher, m.startIndex, m.endIndex)) =
      [(MatcherId.vueColon, 6, 16)] ∧
    execFrom (matcherMatchAt .vueBind) (strLit "v-bind:class=\"a\"") 0 = some (0, 16) ∧
    getPatternSpecificity (matcherFrameworks .vueBind) =
      getPatternSpecificity (matcherFrameworks .vueColon) := by decide

theorem findOverlapping_first (s e : Nat) :
    ∀ (found : List ClassMatch) (idx : Nat) (ex : ClassMatch),
    findOverlapping s e found = some (idx, ex) →
    found[idx]? = some ex ∧ overlapsExisting s e ex = true ∧
    ∀ j, j < idx → ∀ ex2, found[j]? = some ex2 →
      overlapsExisting s e ex2 = false := by
  intro found
  induction found with
  | nil => intro idx ex h; cases h
  | cons m rest ih =>
    intro idx ex h
    by_cases ho : overlapsExisting s e m = true
    · simp only [findOverlapping, if_pos ho] at h
      cases h
      refine ⟨by simp, ho, ?_⟩
      intro j hj
      exact absurd hj (Nat.not_lt_zero j)
    · simp only [findOverlapping, if_neg ho] at h
      obtain ⟨p, hp, hpe⟩ := Option.map_eq_some'.mp h
      obtain ⟨he1, he2⟩ := Prod.mk.injEq _ _ _ _ ▸ hpe
      subst he1
      subst he2
      have hrec := ih p.1 p.2 hp
      refine ⟨by simpa using hrec.1, hrec.2.1, ?_⟩
      intro j hj ex2 hex2
      cases j with
      | zero =>
        simp only [List.getElem?_cons_zero, Option.some.injEq] at hex2
        subst hex2
        exact eq_false_of_ne_true ho
      | succ j2 =>
        have hj2 : j2 < p.1 := by omega
        exact hrec.2.2 j2 hj2 ex2 (by simpa using hex2)

/-- C7 (amended): the specificity ranking has ties — the Vue family and
the React family both rank 3, the Angular and Svelte families both rank
2.  When a candidate match overlaps already-recorded matches, it is
compared only with the first overlapping recorded match: the candidate
is kept (and that one recorded match removed) exactly when the
candidate's syntax-family specificity is strictly higher, and is
discarded otherwise — so on equal specificity the earlier-recorded
match wins and the outcome depends on the order in which the matchers
ran, and a kept candidate may leave further overlapping recorded
matches in place.  The first conjunct is the resolution step of the
extraction loop; the second proves that `findOverlapping` returns the
first overlapping recorded match. -/
theorem overlap_resolution_amended :
    (∀ (content : Str) (m : MatcherId) (fuel i s e idx : Nat)
       (found : List ClassMatch) (seen : List MatchKey) (ex : ClassMatch),
      execFrom (matcherMatchAt m) content i = some (s, e) →
      seen.contains (s, e, (content.drop s).take (e - s)) = false →
      findOverlapping s e found = some (idx, ex) →
      matcherLoop content m (fuel + 1) i (found, seen) =
        if getPatternSpecificity (matcherFrameworks m) >
            getPatternSpecificity (matcherFrameworks ex.matcher) then
          matcherLoop content m fuel e
            (found.eraseIdx idx ++
              [{ matchText := (content.drop s).take (e - s),
                 classes := matcherExtractor m ((content.drop s).take (e - s)),
                 matcher := m, startIndex := s, endIndex := e }],
             (s, e, (content.drop s).take (e - s)) :: seen)
        else
          matcherLoop content m fuel e (found, seen)) ∧
    (∀ (s e : Nat) (found : List ClassMatch) (idx : Nat) (ex : ClassMatch),
      findOverlapping s e found = some (idx, ex) →
      found[idx]? = some ex ∧ overlapsExisting s e ex = true ∧
      ∀ j, j < idx → ∀ ex2, found[j]? = some ex2 →
        overlapsExisting s e ex2 = false) ∧
    getPatternSpecificity (matcherFrameworks .vueColon) =
      getPatternSpecificity (matcherFrameworks .jsxQuoted) ∧
    getPatternSpecificity (matcherFrameworks .angularClass) =
      getPatternSpecificity (matcherFrameworks .svelteQuoted) := by
  refine ⟨?_, fun s e => findOverlapping_first s e, by decide, by decide⟩
  intro content m fuel i s e idx found seen ex h1 h2 h3
  simp only [matcherLoop, h1, h2, h3]
  rw [if_neg (by simp)]

/-- Closed instance of `overlap_resolution_amended`'s resolution step:
the `v-bind:class` candidate `[0, 16)` against a recorded `:class` match
`[6, 16)` of equal specificity — the step discards the candidate and
keeps the earlier match. -/
theorem overlap_resolution_amended_witness :
    matcherLoop (strLit "v-bind:class=\"a\"") .vueBind 1 0
      ([{ matchText := strLit ":class=\"a\"", classes := strLit "a",
          matcher := .vueColon, startIndex := 6, endIndex := 16 }], []) =
      (if getPatternSpecificity (matcherFrameworks .vueBind) >
          getPatternSpecificity (matcherFrameworks
            ({ matchText := strLit ":class=\"a\"", classes := strLit "a",
               matcher := .vueColon, startIndex := 6, endIndex := 16 } :
              ClassMatch).matcher) then
        matcherLoop (strLit "v-bind:class=\"a\"") .vueBind 0 16
          ([{ matchText := strLit ":class=\"a\"", classes := strLit "a",
              matcher := .vueColon, startIndex := 6, endIndex := 16 }].eraseIdx 0 ++
            [{ matchText :=
                ((strLit "v-bind:class=\"a\"").drop 0).take (16 - 0),
               classes := matcherExtractor .vueBind
                 (((strLit "v-bind:class=\"a\"").drop 0).take (16 - 0)),
               matcher := .vueBind, startIndex := 0, endIndex := 16 }],
           [(0, 16, ((strLit "v-bind:class=\"a\"").drop 0).take (16 - 0))])
      else
        matcherLoop (strLit "v-bind:class=\"a\"") .vueBind 0 16
          ([{ matchText := strLit ":class=\"a\"", classes := strLit "a",
              matcher := .vueColon, startIndex := 6, endIndex := 16 }], [])) :=
  overlap_resolution_amended.1 (strLit "v-bind:class=\"a\"") .vueBind 0 0 0 16 0
    [{ matchText := strLit ":class=\"a\"", classes := strLit "a",
       matcher := .vueColon, startIndex := 6, endIndex := 16 }] []
    { matchText := strLit ":class=\"a\"", classes := strLit "a",
      matcher := .vueColon, startIndex := 6, endIndex := 16 }
    (by decide) (by decide) (by decide)

/-- C8 (amended): a recoverable error is recorded by incrementing the
counter of its kind and processing continues while that counter stays
strictly below the threshold 10 — work of the kind is refused as soon as
the count reaches 10, not only once it exceeds 10; a non-recoverable
error (such as a configuration error) makes `shouldContinueProcessing`
answer false immediately, so it propagates instead of being absorbed. -/
theorem errorHandler_policy (counts : ErrorCounts) (e : ConversionError) :
    recordError counts e = counts.incr e.etype ∧
    (e.recoverable = false → shouldContinueProcessing counts e = false) ∧
    (e.recoverable = true →
      (shouldContinueProcessing counts e = true ↔ counts.get e.etype < 10)) := by
  refine ⟨rfl, ?_, ?_⟩
  · intro h; simp [shouldContinueProcessing, h]
  · intro h; simp [shouldContinueProcessing, h]

/-- Closed instance of `errorHandler_policy`: a configuration error is
refused at once; a content error with a fresh session is accepted. -/
theorem errorHandler_policy_witness :
    shouldContinueProcessing initialErrorCounts mkConfigurationError = false ∧
    (shouldContinueProcessing initialErrorCounts mkContentProcessingError = true ↔
      initialErrorCounts.get .content < 10) :=
  ⟨(errorHandler_policy initialErrorCounts mkConfigurationError).2.1 (by decide),
   (errorHandler_policy initialErrorCounts mkContentProcessingError).2.2 (by decide)⟩

/-- C8 counterexample: with ten recorded content errors the count equals
the threshold — it does not exceed 10 — yet further content work is
already refused. -/
theorem errorHandler_threshold_cex :
    shouldContinueProcessing { file := 0, content := 10, git := 0, config := 0 }
      mkContentProcessingError = false ∧
    ¬ ((10 : Nat) > 10) := by decide

theorem processMatchGap_skip (classes : Str)
    (h : overallHasFlexOrGrid (parseTokens classes) = false) :
    processMatchGap classes = none := by
  simp [processMatchGap, h]

theorem gapConversion_gating (content filePath : Str)
    (h : ∀ m ∈ extractAllClassMatches content filePath,
      overallHasFlexOrGrid (parseTokens m.classes) = false) :
    gapConversion content filePath = { newContent := content, changed := false } := by
  unfold gapConversion conversionWith
  have hrep : (extractAllClassMatches content filePath).filterMap
      (fun m => (processMatchGap m.classes).map (fun ncs => (m, ncs))) = [] := by
    rw [List.filterMap_eq_nil_iff]
    intro m hm
    rw [processMatchGap_skip m.classes (h m hm)]
    rfl
  simp [hrep]

/-- C6: `gapConversion` merges only inside class-attribute occurrences
whose entire token set contains a layout-mode token — an exact base
token `flex` or `grid`, or a base class name starting with `flex-` or
`grid-`, under any variant prefix.  When no extracted occurrence carries
such a token the content is returned unchanged with `changed = false`;
the occurrence `space-x-4 space-y-4` alone is left untouched, while
adding `flex` to the same token set triggers the merge into
`flex gap-4`. -/
theorem gapConversion_layout_gated (content filePath : Str)
    (h : ∀ m ∈ extractAllClassMatches content filePath,
      overallHasFlexOrGrid (parseTokens m.classes) = false) :
    gapConversion content filePath = { newContent := content, changed := false } ∧
    gapConversion (strLit "class=\"space-x-4 space-y-4\"") (strLit "test.html") =
      { newContent := strLit "class=\"space-x-4 space-y-4\"", changed := false } ∧
    gapConversion (strLit "class=\"flex space-x-4 space-y-4\"") (strLit "test.html") =
      { newContent := strLit "class=\"flex gap-4\"", changed := true } :=
  ⟨gapConversion_gating content filePath h, by decide, by decide⟩

/-- Closed instance of `gapConversion_layout_gated` at the gate-failing
occurrence itself. -/
theorem gapConversion_layout_gated_witness :
    gapConversion (strLit "class=\"space-x-4 space-y-4\"") (strLit "test.html") =
      { newContent := strLit "class=\"space-x-4 space-y-4\"", changed := false } ∧
    gapConversion (strLit "class=\"space-x-4 space-y-4\"") (strLit "test.html") =
      { newContent := strLit "class=\"space-x-4 space-y-4\"", changed := false } ∧
    gapConversion (strLit "class=\"flex space-x-4 space-y-4\"") (strLit "test.html") =
      { newContent := strLit "class=\"flex gap-4\"", changed := true } :=
  gapConversion_layout_gated (strLit "class=\"space-x-4 space-y-4\"")
    (strLit "test.html") (by decide)

theorem distributeAux_flatten (chunkSize : Nat) (hcs : 1 ≤ chunkSize) :
    ∀ (fuel : Nat) (files : List Str), files.length ≤ fuel →
    (distributeAux chunkSize fuel files).flatten = files := by
  intro fuel
  induction fuel with
  | zero =>
    intro files h
    rw [List.eq_nil_of_length_eq_zero (Nat.le_zero.mp h)]
    rfl
  | succ fuel ih =>
    intro files h
    cases files with
    | nil => rfl
    | cons a rest =>
      show ((a :: rest).take chunkSize ::
        distributeAux chunkSize fuel ((a :: rest).drop chunkSize)).flatten = a :: rest
      rw [List.flatten_cons, ih _ ?_, List.take_append_drop]
      simp only [List.length_drop, List.length_cons]
      simp only [List.length_cons] at h
      omega

theorem distributeFiles_flatten (files : List Str) (chunkSize : Nat)
    (hcs : 1 ≤ chunkSize) : (distributeFiles files chunkSize).flatten = files := by
  unfold distributeFiles
  rw [if_neg (by omega)]
  exact distributeAux_flatten chunkSize hcs files.length files le_rfl

theorem batchAux_flatten (maxWorkers : Nat) (hmw : 1 ≤ maxWorkers) :
    ∀ (fuel : Nat) (chunks : List (List Str)), chunks.length ≤ fuel →
    (batchAux maxWorkers fuel chunks).flatten = chunks := by
  intro fuel
  induction fuel with
  | zero =>
    intro chunks h
    rw [List.eq_nil_of_length_eq_zero (Nat.le_zero.mp h)]
    rfl
  | succ fuel ih =>
    intro chunks h
    cases chunks with
    | nil => rfl
    | cons a rest =>
      show ((a :: rest).take maxWorkers ::
        batchAux maxWorkers fuel ((a :: rest).drop maxWorkers)).flatten = a :: rest
      rw [List.flatten_cons, ih _ ?_, List.take_append_drop]
      simp only [List.length_drop, List.length_cons]
      simp only [List.length_cons] at h
      omega

theorem batchChunks_flatten (chunks : List (List Str)) (maxWorkers : Nat)
    (hmw : 1 ≤ maxWorkers) : (batchChunks chunks maxWorkers).flatten = chunks := by
  unfold batchChunks
  rw [if_neg (by omega)]
  exact batchAux_flatten maxWorkers hmw chunks.length chunks le_rfl

theorem processChunk_flatten (oracle : Str → Bool × Bool) :
    ∀ (chunks : List (List Str)),
    ((chunks.map (processChunk oracle)).flatten) = processChunk oracle chunks.flatten := by
  intro chunks
  induction chunks with
  | nil => rfl
  | cons c rest ih =>
    simp only [List.map_cons, List.flatten_cons, ih, processChunk, List.map_append]

theorem processChunk_append (oracle : Str → Bool × Bool) (l1 l2 : List Str) :
    processChunk oracle (l1 ++ l2) =
      processChunk oracle l1 ++ processChunk oracle l2 := by
  unfold processChunk
  exact List.map_append _ l1 l2

theorem batches_flat (oracle : Str → Bool × Bool) :
    ∀ (batches : List (List (List Str))),
    (batches.map (fun batch => (batch.map (processChunk oracle)).flatten)).flatten =
      processChunk oracle batches.flatten.flatten := by
  intro batches
  induction batches with
  | nil => rfl
  | cons b rest ih =>
    simp only [List.map_cons, List.flatten_cons, List.flatten_append,
      processChunk_append, processChunk_flatten] at ih ⊢
    rw [ih]

theorem collectResults_trace (total : Nat) :
    ∀ (l : List WorkerResult) (processed : Nat),
    (collectResults total l processed).2 =
      (l.enumFrom (processed + 1)).map (fun e => (e.1, total, e.2.filePath)) := by
  intro l
  induction l with
  | nil => intro processed; rfl
  | cons wr rest ih =>
    intro processed
    show ((processed + 1, total, wr.filePath) ::
        (collectResults total rest (processed + 1)).2) = _
    rw [ih]
    rfl

theorem enumFrom_map_snd {α β : Type} (g : α → β) :
    ∀ (l : List α) (n : Nat),
    (l.map g).enumFrom n = (l.enumFrom n).map (fun e => (e.1, g e.2)) := by
  intro l
  induction l with
  | nil => intro n; rfl
  | cons a rest ih =>
    intro n
    simp only [List.map_cons, List.enumFrom, ih]

/-- C9 (amended): under concurrent processing the progress callback is
invoked exactly once per completed file, in completion order, with the
running completed count (1 up to the total), the total file count, and
the path of the file that just completed; under sequential processing it
is instead invoked once per file *before* the file is processed, with
the zero-based index of the file (the number of files completed at that
moment), the total, and the path of the file *about to be* processed, so
the count reported for the final file is `total - 1`, never `total`. -/
theorem progress_callback_paths (files : List Str) (oracle : Str → Bool × Bool)
    (maxWorkers chunkSize : Nat) (hmw : 1 ≤ maxWorkers) (hcs : 1 ≤ chunkSize) :
    (processFiles files oracle maxWorkers chunkSize).2 =
      (files.enumFrom 1).map (fun e => (e.1, files.length, e.2)) ∧
    (processFilesSequential files oracle).2 =
      files.enum.map (fun e => (e.1, files.length, e.2)) := by
  constructor
  · unfold processFiles
    dsimp only
    rw [batches_flat, collectResults_trace]
    have hb : (batchChunks (distributeFiles files chunkSize) maxWorkers).flatten =
        distributeFiles files chunkSize := batchChunks_flatten _ _ hmw
    rw [hb, distributeFiles_flatten files chunkSize hcs]
    rw [show processChunk oracle files = files.map (fun filePath =>
      ({ filePath := filePath, success := (oracle filePath).1,
         changed := (oracle filePath).2 } : WorkerResult)) from rfl]
    rw [enumFrom_map_snd]
    simp
  · rfl

/-- Closed instance of `progress_callback_paths` on two files. -/
theorem progress_callback_paths_witness :
    (processFiles [strLit "a.html", strLit "b.html"] (fun _ => (true, true)) 1 1).2 =
      (([strLit "a.html", strLit "b.html"] : List Str).enumFrom 1).map
        (fun e => (e.1, 2, e.2)) ∧
    (processFilesSequential [strLit "a.html", strLit "b.html"]
        (fun _ => (true, true))).2 =
      (([strLit "a.html", strLit "b.html"] : List Str).enum).map
        (fun e => (e.1, 2, e.2)) :=
  progress_callback_paths [strLit "a.html", strLit "b.html"]
    (fun _ => (true, true)) 1 1 (by decide) (by decide)

/-- C9 counterexample: in the sequential path with a single file, the
only callback invocation carries processed count 0 — it happens before
the file is processed — whereas the claim requires an invocation per
*completed* file carrying the completed count 1. -/
theorem sequential_progress_cex :
    (processFilesSequential [strLit "a.html"] (fun _ => (true, true))).2 =
      [(0, 1, strLit "a.html")] ∧
    (0 : Nat) ≠ 1 := by decide

theorem segsChain_mono (n : Nat) :
    ∀ (L : List Seg) (lo lo' : Nat), lo' ≤ lo →
    SegsChain n lo L → SegsChain n lo' L := by
  intro L lo lo' h hc
  cases L with
  | nil => trivial
  | cons s rest =>
    obtain ⟨h1, h2, h3, h4⟩ := hc
    exact ⟨le_trans h h1, h2, h3, h4⟩

theorem ascRender_take (c : Str) :
    ∀ (L : List Seg) (lo : Nat), SegsChain c.length lo L →
    ∀ k, k ≤ lo → (ascRender c L).take k = c.take k := by
  intro L
  induction L with
  | nil => intro lo _ k _; rfl
  | cons seg rest _ =>
    intro lo hc k hk
    obtain ⟨h1, h2, h3, _⟩ := hc
    show ((c.take seg.1 ++ seg.2.2) ++ (ascRender c rest).drop seg.2.1).take k
        = c.take k
    have hks : k ≤ seg.1 := le_trans hk h1
    have hklen : k ≤ (c.take seg.1).length := by
      rw [List.length_take]
      exact le_min hks (le_trans hks (le_trans (le_of_lt h2) h3))
    rw [List.append_assoc, List.take_append_of_le_length hklen,
      List.take_take, min_eq_left hks]

theorem foldSplice_reverse (c : Str) :
    ∀ (L : List Seg), SegsChain c.length 0 L →
    (L.reverse).foldl spliceSeg c = ascRender c L := by
  intro L
  induction L with
  | nil => intro _; rfl
  | cons x rest ih =>
    intro hc
    obtain ⟨_, hx1, hx2, hrest⟩ := hc
    rw [List.reverse_cons, List.foldl_append]
    simp only [List.foldl_cons, List.foldl_nil]
    rw [ih (segsChain_mono _ _ _ _ (Nat.zero_le _) hrest)]
    show (ascRender c rest).take x.1 ++ x.2.2 ++ (ascRender c rest).drop x.2.1
        = ascRender c (x :: rest)
    rw [ascRender_take c rest x.2.1 hrest x.1 (le_of_lt hx1)]
    rfl

theorem chain_of_sorted (c : Str) :
    ∀ (L : List Seg) (lo : Nat),
    (∀ s ∈ L, s.1 < s.2.1 ∧ s.2.1 ≤ c.length) →
    L.Pairwise (fun a b => a.2.1 ≤ b.1 ∨ b.2.1 ≤ a.1) →
    L.Pairwise (fun a b => a.1 ≤ b.1) →
    (∀ s ∈ L, lo ≤ s.1) →
    SegsChain c.length lo L := by
  intro L
  induction L with
  | nil => intro lo _ _ _ _; trivial
  | cons x rest ih =>
    intro lo hb hd hs hlo
    have hxb := hb x (List.mem_cons_self x rest)
    refine ⟨hlo x (List.mem_cons_self x rest), hxb.1, hxb.2, ?_⟩
    apply ih
    · intro s hsm; exact hb s (List.mem_cons_of_mem x hsm)
    · exact hd.of_cons
    · exact hs.of_cons
    · intro s hsm
      have hdx := (List.pairwise_cons.mp hd).1 s hsm
      have hsx := (List.pairwise_cons.mp hs).1 s hsm
      have hsb := hb s (List.mem_cons_of_mem x hsm)
      rcases hdx with h | h
      · exact h
      · exact absurd (lt_of_lt_of_le hsb.1 (le_trans h hsx)) (lt_irrefl s.1)

theorem applyClassReplacements_eq_fold (content : Str)
    (reps : List (ClassMatch × List Str)) :
    applyClassReplacements content reps =
      ((sortByStartDesc reps).map toSeg).foldl spliceSeg content := by
  unfold applyClassReplacements
  rw [List.foldl_map]
  rfl

theorem sortByStartDesc_sorted (reps : List (ClassMatch × List Str)) :
    (sortByStartDesc reps).Pairwise
      (fun a b => b.1.startIndex ≤ a.1.startIndex) := by
  haveI : IsTotal (ClassMatch × List Str)
      (fun a b => b.1.startIndex ≤ a.1.startIndex) :=
    ⟨fun a b => Nat.le_total b.1.startIndex a.1.startIndex⟩
  haveI : IsTrans (ClassMatch × List Str)
      (fun a b => b.1.startIndex ≤ a.1.startIndex) :=
    ⟨fun _ _ _ hab hbc => le_trans hbc hab⟩
  exact List.sorted_insertionSort _ reps

/-- C2: for every content string and every list of replacements whose
matched spans are non-empty, lie inside the content, and are pairwise
non-overlapping, `applyClassReplacements` splices the replacements in
descending order of start offset and its result is the segment rendering
of the replacements in ascending span order: the original characters
before, between and after the matched spans are passed through verbatim,
and each matched span is replaced by its reconstructed attribute text. -/
theorem applyClassReplacements_spec (content : Str)
    (reps : List (ClassMatch × List Str))
    (hb : ∀ r ∈ reps, r.1.startIndex < r.1.endIndex ∧
      r.1.endIndex ≤ content.length)
    (hd : reps.Pairwise (fun a b =>
      a.1.endIndex ≤ b.1.startIndex ∨ b.1.endIndex ≤ a.1.startIndex)) :
    ((sortByStartDesc reps).reverse).Perm reps ∧
    ((sortByStartDesc reps).reverse).Pairwise
      (fun a b => a.1.startIndex ≤ b.1.startIndex) ∧
    applyClassReplacements content reps =
      ascRender content (((sortByStartDesc reps).reverse).map toSeg) := by
  have hperm : (sortByStartDesc reps).Perm reps := List.perm_insertionSort _ reps
  have hpermrev : ((sortByStartDesc reps).reverse).Perm reps :=
    (List.reverse_perm _).trans hperm
  have hsortedrev : ((sortByStartDesc reps).reverse).Pairwise
      (fun a b => a.1.startIndex ≤ b.1.startIndex) := by
    rw [List.pairwise_reverse]
    exact sortByStartDesc_sorted reps
  have hdisj_rev : ((sortByStartDesc reps).reverse).Pairwise
      (fun a b => a.1.endIndex ≤ b.1.startIndex ∨ b.1.endIndex ≤ a.1.startIndex) := by
    refine (List.Perm.pairwise_iff ?_ hpermrev).mpr hd
    intro a b hab
    exact hab.symm
  have hb_rev : ∀ r ∈ (sortByStartDesc reps).reverse,
      r.1.startIndex < r.1.endIndex ∧ r.1.endIndex ≤ content.length :=
    fun r hr => hb r (hpermrev.mem_iff.mp hr)
  have hchain : SegsChain content.length 0
      (((sortByStartDesc reps).reverse).map toSeg) := by
    apply chain_of_sorted
    · intro s hs
      obtain ⟨r, hr, rfl⟩ := List.mem_map.mp hs
      exact hb_rev r hr
    · rw [List.pairwise_map]
      exact hdisj_rev
    · rw [List.pairwise_map]
      exact hsortedrev
    · intro s _; exact Nat.zero_le _
  refine ⟨hpermrev, hsortedrev, ?_⟩
  rw [applyClassReplacements_eq_fold,
    ← foldSplice_reverse content _ hchain]
  congr 1
  rw [← List.map_reverse, List.reverse_reverse]

/-- Closed instance of `applyClassReplacements_spec`: two disjoint
replacements over one concrete content string. -/
theorem applyClassReplacements_spec_witness :
    ((sortByStartDesc
        [({ matchText := strLit "class=\"a\"", classes := strLit "a",
            matcher := .htmlQuoted, startIndex := 2, endIndex := 11 },
          [strLit "size-4"]),
         ({ matchText := strLit "class=\"b\"", classes := strLit "b",
            matcher := .htmlQuoted, startIndex := 13, endIndex := 22 },
          [strLit "p-2"])]).reverse).Perm
      [({ matchText := strLit "class=\"a\"", classes := strLit "a",
          matcher := .htmlQuoted, startIndex := 2, endIndex := 11 },
        [strLit "size-4"]),
       ({ matchText := strLit "class=\"b\"", classes := strLit "b",
          matcher := .htmlQuoted, startIndex := 13, endIndex := 22 },
        [strLit "p-2"])] ∧
    ((sortByStartDesc
        [({ matchText := strLit "class=\"a\"", classes := strLit "a",
            matcher := .htmlQuoted, startIndex := 2, endIndex := 11 },
          [strLit "size-4"]),
         ({ matchText := strLit "class=\"b\"", classes := strLit "b",
            matcher := .htmlQuoted, startIndex := 13, endIndex := 22 },
          [strLit "p-2"])]).reverse).Pairwise
      (fun a b => a.1.startIndex ≤ b.1.startIndex) ∧
    applyClassReplacements (strLit "xxclass=\"a\"yyclass=\"b\"zz")
      [({ matchText := strLit "class=\"a\"", classes := strLit "a",
          matcher := .htmlQuoted, startIndex := 2, endIndex := 11 },
        [strLit "size-4"]),
       ({ matchText := strLit "class=\"b\"", classes := strLit "b",
          matcher := .htmlQuoted, startIndex := 13, endIndex := 22 },
        [strLit "p-2"])] =
      ascRender (strLit "xxclass=\"a\"yyclass=\"b\"zz")
        (((sortByStartDesc
          [({ matchText := strLit "class=\"a\"", classes := strLit "a",
              matcher := .htmlQuoted, startIndex := 2, endIndex := 11 },
            [strLit "size-4"]),
           ({ matchText := strLit "class=\"b\"", classes := strLit "b",
              matcher := .htmlQuoted, startIndex := 13, endIndex := 22 },
            [strLit "p-2"])]).reverse).map toSeg) :=
  applyClassReplacements_spec (strLit "xxclass=\"a\"yyclass=\"b\"zz")
    [({ matchText := strLit "class=\"a\"", classes := strLit "a",
        matcher := .htmlQuoted, startIndex := 2, endIndex := 11 },
      [strLit "size-4"]),
     ({ matchText := strLit "class=\"b\"", classes := strLit "b",
        matcher := .htmlQuoted, startIndex := 13, endIndex := 22 },
      [strLit "p-2"])] (by decide) (by decide)
